import Mathlib

/-!
Verification of the paper-valuation repository against its specification.

This file is a shallow embedding of the core of the repository:
  * `components/valuation.py` — the mark curve, paragraph splitting and the
    long/short valuation pipeline (floating point arithmetic is modelled by
    real numbers; the external sentence-embedding model is modelled by an
    abstract similarity oracle `String → String → ℝ`);
  * `api/utils.py` — multi-page merging and student-submission evaluation
    (the scoring calls, which go through the embedding model, are modelled by
    an abstract score oracle);
  * `api/sheet_geometry_segmentation.py` — label parsing and span building;
  * `api/vision_segmentation.py` / `api/enhanced_vision_segmentation.py` —
    the heuristic label recognizer and answer-text reconstruction.

Python strings are modelled by `String`, operating on `String.data`
(`List Char`) so that every definition is structurally recursive and can be
evaluated by the kernel.  Python `dict`s are modelled by association lists in
insertion order.  Fallible Python code (code that can raise) returns
`Except String _`.
-/

/-! ### Python string primitives -/

/-- Characters stripped by Python `str.strip()` (the ASCII whitespace set). -/
def pyIsSpace (c : Char) : Bool :=
  c == ' ' || c == '\t' || c == '\n' || c == '\x0b' || c == '\x0c' || c == '\r'

/-- Python `str.strip()` on a character list. -/
def stripChars (l : List Char) : List Char :=
  ((l.dropWhile pyIsSpace).reverse.dropWhile pyIsSpace).reverse

/-- Python `str.strip()`. -/
def pyStrip (s : String) : String :=
  String.mk (stripChars s.data)

/-- Python `str.rstrip()` on a character list. -/
def rstripChars (l : List Char) : List Char :=
  (l.reverse.dropWhile pyIsSpace).reverse

/-- Value of a digit run, as computed by Python `int(...)`. -/
def digitsToNat (l : List Char) : ℕ :=
  l.foldl (fun n c => 10 * n + (c.toNat - '0'.toNat)) 0

/-- First maximal digit run of a character list (Python
`re.search(r'\d+', s)`), or `[]` when the string has no digit. -/
def firstDigitRun : List Char → List Char
  | [] => []
  | c :: rest => if c.isDigit then c :: rest.takeWhile Char.isDigit else firstDigitRun rest

/-- Accumulator-based splitting on the two-character separator `"\n\n"`
(Python `text.split('\n\n')`, leftmost non-overlapping occurrences). -/
def splitNNAux : List Char → List Char → List (List Char)
  | cur, [] => [cur.reverse]
  | cur, '\n' :: '\n' :: rest => cur.reverse :: splitNNAux [] rest
  | cur, c :: rest => splitNNAux (c :: cur) rest

/-- Python `text.split('\n\n')`. -/
def pySplitNN (s : String) : List String :=
  (splitNNAux [] s.data).map String.mk

/-- Accumulator-based splitting on a single newline (Python `text.split('\n')`). -/
def splitNAux : List Char → List Char → List (List Char)
  | cur, [] => [cur.reverse]
  | cur, '\n' :: rest => cur.reverse :: splitNAux [] rest
  | cur, c :: rest => splitNAux (c :: cur) rest

/-- Python `text.split('\n')`. -/
def pySplitN (s : String) : List String :=
  (splitNAux [] s.data).map String.mk

/-- True for the sentence-terminating characters of the regex class `[.!?]`. -/
def isSentencePunct (c : Char) : Bool :=
  c == '.' || c == '!' || c == '?'

/-- Splitting on maximal runs of `[.!?]` (Python `re.split(r'[.!?]+', text)`).
The boolean records whether we are inside a punctuation run. -/
def splitPunctAux : Bool → List Char → List Char → List (List Char)
  | _, cur, [] => [cur.reverse]
  | inRun, cur, c :: rest =>
    if isSentencePunct c then
      if inRun then splitPunctAux true cur rest
      else cur.reverse :: splitPunctAux true [] rest
    else splitPunctAux false (c :: cur) rest

/-- Python `re.split(r'[.!?]+', text)`. -/
def pySplitPunct (s : String) : List String :=
  (splitPunctAux false [] s.data).map String.mk

/-- Join a list of character lists with a separator (Python `sep.join(...)`). -/
def joinSepChars (sep : List Char) : List (List Char) → List Char
  | [] => []
  | [x] => x
  | x :: y :: rest => x ++ sep ++ joinSepChars sep (y :: rest)

/-! ### smart_paragraph_split (components/valuation.py, lines 31-76) -/

/-- Slicing loop `for i in range(0, len(l), k)` collecting `l[i:i+k]`.
The first argument is fuel, always instantiated with `l.length + 1` so the
recursion is structural and the kernel can evaluate it. -/
def chunkListAux {α : Type} : ℕ → ℕ → List α → List (List α)
  | 0, _, l => [l]
  | _, _, [] => []
  | fuel + 1, k, x :: xs => (x :: xs.take (k - 1)) :: chunkListAux fuel k (xs.drop (k - 1))

/-- Python slicing `[l[i:i+k] for i in range(0, len(l), k)]` for `k ≥ 1`. -/
def chunkList {α : Type} (k : ℕ) (l : List α) : List (List α) :=
  chunkListAux (l.length + 1) k l

/-- The sentence-regrouping branch of `smart_paragraph_split`: join each chunk
with `'.'` and append a final `'.'` when missing. -/
def chunkParagraphs (sentence : List String) : List String :=
  (chunkList (max 1 (min 3 (sentence.length / 3))) sentence).map (fun c =>
    let j := joinSepChars ['.'] (c.map String.data)
    if j.getLast? == some '.' then String.mk j else String.mk (j ++ ['.']))

/-- Final loop of `smart_paragraph_split` (valuation.py lines 56-74).  The
`len(para) > 300` branch of the source executes
`sentences = [s.strip() for s in sentences if s.strip()]` (line 61), which
reads the local variable `sentences` before it is ever assigned, so the
Python function raises `UnboundLocalError` there; this is modelled by
`Except.error`. -/
def smartSplitFinalLoop : List String → Except String (List String)
  | [] => Except.ok []
  | p :: rest =>
    if p.data.length > 300 then
      Except.error "UnboundLocalError: sentences referenced before assignment"
    else
      match smartSplitFinalLoop rest with
      | Except.ok l => Except.ok (p :: l)
      | Except.error e => Except.error e

/-- Python `[p.strip() for p in l if p.strip()]`. -/
def stripFilter (l : List String) : List String :=
  (l.filter (fun p => !(stripChars p.data).isEmpty)).map pyStrip

/-- `smart_paragraph_split` from components/valuation.py (lines 31-76):
double-newline split, retry on single newlines when that yields at most 2
chunks, sentence-level fallback, and the final length check whose long-chunk
branch raises in the source (see `smartSplitFinalLoop`). -/
def smart_paragraph_split (text : String) : Except String (List String) :=
  let text := pyStrip text
  let paragraph := stripFilter (pySplitNN text)
  let paragraph :=
    if paragraph.length ≤ 2 then
      let single_line_paragraph := stripFilter (pySplitN text)
      if paragraph.length < single_line_paragraph.length then single_line_paragraph
      else paragraph
    else paragraph
  let paragraph :=
    if paragraph.length ≤ 2 then
      let sentence :=
        ((pySplitPunct text).filter
          (fun s => !(stripChars s.data).isEmpty && decide (s.data.length > 10))).map pyStrip
      if sentence.length > 3 then chunkParagraphs sentence else paragraph
    else paragraph
  smartSplitFinalLoop paragraph

/-! ### The mark curve (components/valuation.py, lines 6-18)

Floats are modelled by real numbers.  Python's built-in `round` rounds
half-to-even (banker's rounding); `round(x, 2)` rounds to two decimal places
with the same tie rule. -/

open scoped Classical

/-- Python built-in `round(x)`: nearest integer, ties to even. -/
noncomputable def pyRound (x : ℝ) : ℤ :=
  if Int.fract x < 1/2 then ⌊x⌋
  else if 1/2 < Int.fract x then ⌊x⌋ + 1
  else if Even ⌊x⌋ then ⌊x⌋ else ⌊x⌋ + 1

/-- Python `round(x, 2)`: rounding to two decimal places, ties to even. -/
noncomputable def pyRound2 (x : ℝ) : ℝ :=
  (pyRound (x * 100) : ℝ) / 100

/-- `round_by_half` from valuation.py line 6: `round(score*2)/2`. -/
noncomputable def round_by_half (score : ℝ) : ℝ :=
  (pyRound (score * 2) : ℝ) / 2

/-- Default `threshold` parameter of `calculate_marks` (valuation.py line 9). -/
noncomputable def calculate_marks_threshold_default : ℝ := 0.55

/-- Default `exponent` parameter of `calculate_marks` (valuation.py line 9). -/
noncomputable def calculate_marks_exponent_default : ℝ := 0.6

/-- `calculate_marks` from valuation.py lines 9-18: zero below the threshold,
otherwise `round_by_half(round(scale**exponent * max_mark, 2))` with
`scale = (similarity - threshold)/(1 - threshold)`.  `**` is real `rpow`. -/
noncomputable def calculate_marks (similarity_score max_mark threshold exponent : ℝ) : ℝ :=
  if similarity_score < threshold then 0
  else
    round_by_half (pyRound2
      (((similarity_score - threshold) / (1 - threshold)) ^ exponent * max_mark))

/-! ### The valuation pipeline (components/valuation.py, lines 24-144)

The sentence-transformer embedding model is external; cosine similarity of two
encoded texts is modelled by an abstract oracle `sim : String → String → ℝ`.
Every theorem below holds for an arbitrary oracle, hence in particular for the
similarity function realised by the model. -/

/-- `short_answer_valuation(teacher_answer, student_answer)` (lines 24-28):
`cos_sim(encode(student_answer), encode(teacher_answer))` under the oracle. -/
def short_answer_valuation (sim : String → String → ℝ) (teacher_answer student_answer : String) : ℝ :=
  sim student_answer teacher_answer

/-- Default `threshold` parameter of `point_by_point_valuation` (line 79). -/
noncomputable def point_by_point_threshold_default : ℝ := 0.4

/-- One row of the `detailed_result` list of `point_by_point_valuation`. -/
structure PointDetail where
  key_point : String
  mark_scored : ℝ
  max_mark_of_point : ℝ
  similarity_score : ℝ
  best_match : String

/-- Return value of `point_by_point_valuation`. -/
structure PointByPointResult where
  details : List PointDetail
  total_mark_scored : ℝ
  total_mark : ℝ

/-- Python `paragraph[:50] + "...." if len(paragraph) > 50 else paragraph`
(valuation.py line 95). -/
def truncPara (p : String) : String :=
  if p.data.length > 50 then String.mk (p.data.take 50 ++ "....".data) else p

/-- The inner loop of `point_by_point_valuation` (lines 87-96): best similarity
over the student paragraphs, starting from `best_score_key_point = 0.0` and
updating on strict improvement. -/
noncomputable def bestMatch (sim : String → String → ℝ) (key_point : String) (paragraphs : List String) : ℝ × String :=
  paragraphs.foldl
    (fun acc p => if acc.1 < sim key_point p then (sim key_point p, truncPara p) else acc)
    (0, "")

/-- `point_by_point_valuation` from valuation.py lines 79-112.  It begins by
calling `smart_paragraph_split` on the student answer, which can raise. -/
noncomputable def point_by_point_valuation (sim : String → String → ℝ)
    (teacher_key_point : List String) (student_answer : String)
    (mark_per_point threshold : ℝ) : Except String PointByPointResult :=
  match smart_paragraph_split student_answer with
  | Except.error e => Except.error e
  | Except.ok student_paragraph =>
    let r := teacher_key_point.foldl
      (fun (acc : List PointDetail × ℝ) key_point =>
        let bm := bestMatch sim key_point student_paragraph
        let mark_of_point := calculate_marks bm.1 mark_per_point threshold calculate_marks_exponent_default
        (acc.1 ++ [⟨key_point, mark_of_point, mark_per_point, bm.1, bm.2⟩], acc.2 + mark_of_point))
      ([], 0)
    Except.ok ⟨r.1, r.2, (teacher_key_point.length : ℝ) * mark_per_point⟩

/-- Default `threshold` parameter of `holistic_valuation` (line 114). -/
noncomputable def holistic_threshold_default : ℝ := 0.35

/-- Return value of `holistic_valuation`. -/
structure HolisticResult where
  total_mark_scored : ℝ
  total_mark : ℝ
  similarity : ℝ

/-- Python `' '.join(l)`. -/
def joinSpace (l : List String) : String :=
  String.mk (joinSepChars [' '] (l.map String.data))

/-- `holistic_valuation` from valuation.py lines 114-126: one similarity of the
whole student answer against the space-joined key points, pushed through the
mark curve at the question's full mark. -/
noncomputable def holistic_valuation (sim : String → String → ℝ) (student_answer : String)
    (teacher_key_point : List String) (total_question_mark threshold : ℝ) : HolisticResult :=
  let teacher_answer := joinSpace teacher_key_point
  let similarity_score := sim student_answer teacher_answer
  { total_mark_scored := calculate_marks similarity_score total_question_mark threshold calculate_marks_exponent_default
    total_mark := total_question_mark
    similarity := similarity_score }

/-- Default `holistic_threshold` parameter of `advanced_long_valuation`
(line 128). -/
noncomputable def advanced_holistic_threshold_default : ℝ := 0.35

/-- Default `point_threshold` parameter of `advanced_long_valuation`
(line 128). -/
noncomputable def advanced_point_threshold_default : ℝ := 0.4

/-- Return value of `advanced_long_valuation` (field names as in the source,
including the `holistc_result` typo). -/
structure AdvancedLongResult where
  final_score : ℝ
  holistc_result : HolisticResult
  point_by_point_result : PointByPointResult

/-- `advanced_long_valuation` from valuation.py lines 128-139: holistic mark,
then `mark_per_point = total/len(key_points)` (a `ZeroDivisionError` when the
key-point list is empty), then the point-by-point pass, and finally the max of
the two totals. -/
noncomputable def advanced_long_valuation (sim : String → String → ℝ)
    (teacher_key_point : List String) (student_answer : String)
    (total_question_mark holistic_threshold point_threshold : ℝ) :
    Except String AdvancedLongResult :=
  let holistic_result := holistic_valuation sim student_answer teacher_key_point total_question_mark holistic_threshold
  if teacher_key_point.length = 0 then Except.error "ZeroDivisionError"
  else
    let mark_per_point := total_question_mark / (teacher_key_point.length : ℝ)
    match point_by_point_valuation sim teacher_key_point student_answer mark_per_point point_threshold with
    | Except.error e => Except.error e
    | Except.ok point_by_point_result =>
      Except.ok
        { final_score := max holistic_result.total_mark_scored point_by_point_result.total_mark_scored
          holistc_result := holistic_result
          point_by_point_result := point_by_point_result }

/-- `advanced_long_valuation` with its default thresholds (0.35 and 0.4). -/
noncomputable def advanced_long_valuation_defaulted (sim : String → String → ℝ)
    (teacher_key_point : List String) (student_answer : String)
    (total_question_mark : ℝ) : Except String AdvancedLongResult :=
  advanced_long_valuation sim teacher_key_point student_answer total_question_mark
    advanced_holistic_threshold_default advanced_point_threshold_default

/-- `holistic_valuation` with its default threshold (0.35). -/
noncomputable def holistic_valuation_defaulted (sim : String → String → ℝ)
    (student_answer : String) (teacher_key_point : List String)
    (total_question_mark : ℝ) : HolisticResult :=
  holistic_valuation sim student_answer teacher_key_point total_question_mark holistic_threshold_default

/-- Default `threshold` parameter of `evaluation_short_answer` (line 141). -/
noncomputable def evaluation_short_answer_threshold_default : ℝ := 0.55

/-- `evaluation_short_answer` from valuation.py lines 141-144.  The source
passes `(student_answer, teacher_answer)` positionally into
`short_answer_valuation(teacher_answer, student_answer)`, so the arguments are
swapped there; this is reproduced literally. -/
noncomputable def evaluation_short_answer (sim : String → String → ℝ)
    (student_answer teacher_answer : String) (max_mark threshold : ℝ) : ℝ :=
  calculate_marks (short_answer_valuation sim student_answer teacher_answer)
    max_mark threshold calculate_marks_exponent_default

/-- `evaluation_short_answer` with its default threshold (0.55). -/
noncomputable def evaluation_short_answer_defaulted (sim : String → String → ℝ)
    (student_answer teacher_answer : String) (max_mark : ℝ) : ℝ :=
  evaluation_short_answer sim student_answer teacher_answer max_mark
    evaluation_short_answer_threshold_default

/-! ### Multi-page merging (api/utils.py, lines 62-95)

A per-page answer map is an association list `List (String × String)` in the
page's dict insertion order; the merger state is the merged association list
together with `last_q_label`. -/

/-- Association-list lookup, modelling Python `dict` access (dict keys are
unique, so first-match lookup is exact). -/
def alookup {α : Type} (k : String) : List (String × α) → Option α
  | [] => none
  | p :: rest => if p.1 = k then some p.2 else alookup k rest

/-- Python `key in d`. -/
def hasKey {α : Type} (l : List (String × α)) (k : String) : Bool :=
  (alookup k l).isSome

/-- Python `d[k] = f(d[k])` on an association list: rewrite the value at `k`. -/
def updateVal (l : List (String × String)) (k : String) (f : String → String) : List (String × String) :=
  l.map (fun p => if p.1 = k then (p.1, f p.2) else p)

/-- Remove the first binding of `k` (the effect of `d.pop(k)` on the rest of
the dict). -/
def removeKey (k : String) : List (String × String) → List (String × String)
  | [] => []
  | p :: rest => if p.1 = k then rest else p :: removeKey k rest

/-- Python `answers.pop('UNLABELED_CONTINUATION')` when present: the popped
value together with the remaining items in their original order. -/
def popKey (k : String) (l : List (String × String)) : Option String × List (String × String) :=
  match alookup k l with
  | none => (none, l)
  | some v => (some v, removeKey k l)

/-- Numeric value embedded in a label:
`int(re.search(r'\d+', x).group()) if re.search(r'\d+', x) else 0`
(utils.py line 91). -/
def labelNum (s : String) : ℕ :=
  let run := firstDigitRun s.data
  if run.isEmpty then 0 else digitsToNat run

/-- Merger state: the merged answers so far and `last_q_label`. -/
abbrev MergeState := List (String × String) × Option String

/-- Body of the label loop (utils.py lines 81-87): first occurrence starts a
new entry, a repeated label appends `" " + text.strip()`, and `last_q_label`
becomes this label. -/
def processLabel (st : MergeState) (p : String × String) : MergeState :=
  if hasKey st.1 p.1 then (updateVal st.1 p.1 (fun v => v ++ " " ++ pyStrip p.2), some p.1)
  else (st.1 ++ [(p.1, pyStrip p.2)], some p.1)

/-- Seeding branch for unlabeled text when there is no usable last label
(utils.py lines 74-79). -/
def seedQ1 (merged : List (String × String)) (txt : String) : MergeState :=
  if hasKey merged "Q1" then
    (updateVal merged "Q1" (fun v => pyStrip txt ++ " " ++ v), some "Q1")
  else (merged ++ [("Q1", pyStrip txt)], some "Q1")

/-- UNLABELED_CONTINUATION handling (utils.py lines 69-79).  The guard
`if last_q_label and last_q_label in merged_answers` tests string truthiness,
hence the `q ≠ ""` condition. -/
def processUnlabeled (st : MergeState) (txt : String) : MergeState :=
  match st.2 with
  | some q =>
    if q ≠ "" ∧ hasKey st.1 q then (updateVal st.1 q (fun v => v ++ " " ++ pyStrip txt), st.2)
    else seedQ1 st.1 txt
  | none => seedQ1 st.1 txt

/-- Processing of one page (utils.py lines 66-87): pop the unlabeled text
first, then fold the remaining labels in page order. -/
def mergePage (st : MergeState) (page : List (String × String)) : MergeState :=
  let pop := popKey "UNLABELED_CONTINUATION" page
  let st1 := match pop.1 with
    | some t => processUnlabeled st t
    | none => st
  pop.2.foldl processLabel st1

/-- Stable insertion (before the first strictly greater key) used to model
Python's stable `sorted` keyed on `labelNum`. -/
def insertByLabelNum (p : String × String) : List (String × String) → List (String × String)
  | [] => [p]
  | q :: rest => if labelNum p.1 ≤ labelNum q.1 then p :: q :: rest else q :: insertByLabelNum p rest

/-- Python `sorted(items, key=lambda x: labelNum(x[0]))` (stable). -/
def sortByLabelNum (l : List (String × String)) : List (String × String) :=
  l.foldr insertByLabelNum []

/-- Return value of `merge_multi_page_result`. -/
structure MergeResult where
  answers : List (String × String)
  total_pages : ℕ

/-- `merge_multi_page_result` from utils.py lines 62-95. -/
def merge_multi_page_result (all_pages_list : List (List (String × String))) : MergeResult :=
  let final := all_pages_list.foldl mergePage ([], none)
  ⟨sortByLabelNum final.1, all_pages_list.length⟩

/-! ### Question-label recognizers

`parse_question_label` (sheet_geometry_segmentation.py lines 206-224) matches
the anchored regex `^[Qq0O](\d+)$` on the stripped word and requires the
number to lie in `[1, 50]`.

`is_question_label` (vision_segmentation.py lines 38-58) tries four regexes in
order and returns the first capture lying in `[1, 50]`.  Each regex is a
deterministic alternation-free pattern over disjoint character classes, so it
is embedded as a direct parser. -/

/-- Leading characters accepted by `parse_question_label` (`[Qq0O]`). -/
def isGeometryLead (c : Char) : Bool :=
  c == 'Q' || c == 'q' || c == '0' || c == 'O'

/-- `parse_question_label` from sheet_geometry_segmentation.py lines 206-224:
regex `^[Qq0O](\d+)$` on the stripped text, result in `[1, 50]`. -/
def parse_question_label (text : String) : Option ℕ :=
  match stripChars text.data with
  | [] => none
  | c :: rest =>
    if isGeometryLead c ∧ rest ≠ [] ∧ rest.all Char.isDigit then
      if 1 ≤ digitsToNat rest ∧ digitsToNat rest ≤ 50 then some (digitsToNat rest) else none
    else none

/-- Leading characters of the heuristic patterns (`[Qq@]`). -/
def isHeuristicLead (c : Char) : Bool :=
  c == 'Q' || c == 'q' || c == '@'

/-- Trailing punctuation class of the heuristic patterns (`[:\.\)]`). -/
def isLabelPunct (c : Char) : Bool :=
  c == ':' || c == '.' || c == ')'

/-- Common front of patterns 1 and 2: optional `[Qq@]`, then `\s*`, then the
digit group `(\d+)`, then `\s*`.  Returns the captured number and the
remaining characters, or `none` if no digit was found. -/
def heuristicFront (l : List Char) : Option (ℕ × List Char) :=
  let l1 := match l with
    | c :: rest => if isHeuristicLead c then rest else l
    | [] => l
  let l2 := l1.dropWhile pyIsSpace
  let ds := l2.takeWhile Char.isDigit
  if ds.isEmpty then none
  else some (digitsToNat ds, (l2.dropWhile Char.isDigit).dropWhile pyIsSpace)

/-- Pattern 1: `^[Qq@]?\s*(\d+)\s*[:\.\)]\s*$`. -/
def heuristicPattern1 (l : List Char) : Option ℕ :=
  match heuristicFront l with
  | none => none
  | some (q, rest) =>
    match rest with
    | c :: rest2 => if isLabelPunct c ∧ rest2.dropWhile pyIsSpace = [] then some q else none
    | [] => none

/-- Pattern 2: `^[Qq@]?\s*(\d+)\s*[:\.\)]` (prefix match, anything may follow). -/
def heuristicPattern2 (l : List Char) : Option ℕ :=
  match heuristicFront l with
  | none => none
  | some (q, rest) =>
    match rest with
    | c :: _ => if isLabelPunct c then some q else none
    | [] => none

/-- Pattern 3: `^[Qq@](\d+)$`. -/
def heuristicPattern3 (l : List Char) : Option ℕ :=
  match l with
  | c :: rest =>
    if isHeuristicLead c ∧ rest ≠ [] ∧ rest.all Char.isDigit then some (digitsToNat rest) else none
  | [] => none

/-- Pattern 4: `^(\d+)$`. -/
def heuristicPattern4 (l : List Char) : Option ℕ :=
  if l ≠ [] ∧ l.all Char.isDigit then some (digitsToNat l) else none

/-- The range gate `1 <= q_num <= 50` applied to one pattern's capture; a
capture out of range falls through to the next pattern in the source loop. -/
def inLabelRange (o : Option ℕ) : Option ℕ :=
  match o with
  | some q => if 1 ≤ q ∧ q ≤ 50 then some q else none
  | none => none

/-- `is_question_label` from vision_segmentation.py lines 38-58: the four
patterns tried in order on the stripped text. -/
def is_question_label (text : String) : Option ℕ :=
  let t := stripChars text.data
  (inLabelRange (heuristicPattern1 t)).orElse fun _ =>
  (inLabelRange (heuristicPattern2 t)).orElse fun _ =>
  (inLabelRange (heuristicPattern3 t)).orElse fun _ =>
  inLabelRange (heuristicPattern4 t)

/-! ### Question spans (sheet_geometry_segmentation.py, lines 250-282) -/

/-- One span of `build_question_spans`. -/
structure QuestionSpan where
  q_number : ℕ
  label : String
  start_row : ℕ
  end_row : ℕ

/-- Stable insertion for sorting `(row, q_number)` pairs by row. -/
def insertByRow (p : ℕ × ℕ) : List (ℕ × ℕ) → List (ℕ × ℕ)
  | [] => [p]
  | q :: rest => if p.1 ≤ q.1 then p :: q :: rest else q :: insertByRow p rest

/-- Python `sorted(row_to_qnum.items(), key=lambda x: x[0])` (stable). -/
def sortByRow (l : List (ℕ × ℕ)) : List (ℕ × ℕ) :=
  l.foldr insertByRow []

/-- Span construction over the position-sorted label list: each span ends one
row before the next label's row; the last span ends at `total_rows - 1`. -/
def spansFromSorted : List (ℕ × ℕ) → ℕ → List QuestionSpan
  | [], _ => []
  | (row, q_num) :: rest, total_rows =>
    let end_row := match rest with
      | (next_row, _) :: _ => next_row - 1
      | [] => total_rows - 1
    ⟨q_num, "Q" ++ Nat.repr q_num, row, end_row⟩ :: spansFromSorted rest total_rows

/-- `build_question_spans` from sheet_geometry_segmentation.py lines 250-282.
`row_to_qnum` is the `{row: question_number}` dict (distinct rows). -/
def build_question_spans (row_to_qnum : List (ℕ × ℕ)) (total_rows : ℕ) : List QuestionSpan :=
  if row_to_qnum.isEmpty then []
  else spansFromSorted (sortByRow row_to_qnum) total_rows

/-! ### Answer-text reconstruction (api/enhanced_vision_segmentation.py)

OCR words carry text, a bounding box, the Vision API break classification of
their last symbol, and the derived `has_space_after` flag.  Pixel coordinates
are modelled by rationals. -/

/-- Vision API `DetectedBreak.BreakType` values used by the code. -/
inductive BreakType where
  | UNKNOWN
  | SPACE
  | SURE_SPACE
  | EOL_SURE_SPACE
  | LINE_BREAK
  | HYPHEN
deriving DecidableEq

/-- One OCR word as produced by `extract_word_level_data`. -/
structure OCRWord where
  text : String
  x : ℚ
  y : ℚ
  max_x : ℚ
  max_y : ℚ
  break_type : BreakType
  has_space_after : Bool

/-- Stable insertion sort on rationals (Python `list.sort()`). -/
def insertQ (v : ℚ) : List ℚ → List ℚ
  | [] => [v]
  | w :: rest => if v ≤ w then v :: w :: rest else w :: insertQ v rest

/-- Ascending sort of a rational list. -/
def sortQ (l : List ℚ) : List ℚ :=
  l.foldr insertQ []

/-- `calculate_average_line_height` (enhanced_vision_segmentation.py lines
15-26): the median of the word heights greater than 5, defaulting to 40. -/
def calculate_average_line_height (words : List OCRWord) : ℚ :=
  let heights := (words.filter (fun w => decide (w.max_y - w.y > 5))).map (fun w => w.max_y - w.y)
  if heights.isEmpty then 40
  else (sortQ heights).getD (heights.length / 2) 40

/-- One step of the bucket grouping of `calculate_dominant_x_position`: append
`x` to the first group whose key is within 10, else start a new group. -/
def placeXAux : List (ℚ × List ℚ) → ℚ → List (ℚ × List ℚ)
  | [], v => [(v, [v])]
  | g :: rest, v => if |v - g.1| < 10 then (g.1, g.2 ++ [v]) :: rest else g :: placeXAux rest v

/-- Python `max(groups, key=len)`: the first group of maximal size. -/
def maxByLen (l : List (ℚ × List ℚ))  : ℚ × List ℚ :=
  match l with
  | [] => (0, [])
  | g :: rest => rest.foldl (fun best h => if best.2.length < h.2.length then h else best) g

/-- `calculate_dominant_x_position` (enhanced_vision_segmentation.py lines
29-48): mean of the largest 10px bucket of left-margin X positions. -/
def calculate_dominant_x_position (words : List OCRWord) : ℚ :=
  let x_groups := words.foldl (fun gs w => placeXAux gs w.x) []
  match maxByLen x_groups with
  | (_, []) => 0
  | (_, largest) => largest.sum / (largest.length : ℚ)

/-- BULLET_MARKERS from enhanced_vision_segmentation.py line 8. -/
def bulletChars : List Char :=
  ['•', '●', '○', '-', '*', '→', '▸', '>', '■', '□', '▪', '◆', '◇', '►', '»', '–', '—']

/-- The bullet test of `detect_paragraph_boundary`: stripped text equal to a
marker, or first character a marker. -/
def isBulletWord (t : String) : Bool :=
  (match stripChars t.data with
   | [c] => bulletChars.contains c
   | _ => false) ||
  (match t.data with
   | c :: _ => bulletChars.contains c
   | [] => false)

/-- Python `text.rstrip().endswith(('.', '!', '?', ':'))`. -/
def endsSentence (t : String) : Bool :=
  match (rstripChars t.data).getLast? with
  | some c => c == '.' || c == '!' || c == '?' || c == ':'
  | none => false

/-- `detect_paragraph_boundary` from enhanced_vision_segmentation.py lines
84-134. -/
def detect_paragraph_boundary (current_word next_word : OCRWord)
    (avg_line_height dominant_x : ℚ) : Bool :=
  let y_gap := next_word.y - current_word.max_y
  if y_gap < 0 then false
  else
    let is_line_break :=
      current_word.break_type == .LINE_BREAK || current_word.break_type == .EOL_SURE_SPACE
    if !is_line_break then false
    else
      let is_bullet := isBulletWord next_word.text
      let sentence_end := endsSentence current_word.text
      let large_gap := decide (y_gap > avg_line_height * (3/2))
      let moderate_gap := decide (y_gap > avg_line_height * 1)
      let new_indent := decide (|next_word.x - dominant_x| > 30)
      large_gap || is_bullet || (moderate_gap && sentence_end) || (moderate_gap && new_indent)

/-- Regex `' +' → ' '`: collapse runs of spaces. -/
def collapseSpaces : List Char → List Char
  | [] => []
  | [c] => [c]
  | c1 :: c2 :: rest =>
    if c1 == ' ' && c2 == ' ' then collapseSpaces (c2 :: rest)
    else c1 :: collapseSpaces (c2 :: rest)

/-- Regex `'\n{3,}' → '\n\n'`: a run of `k` newlines becomes `min k 2`
newlines.  The counter accumulates the pending newline run. -/
def collapseNl3Aux : ℕ → List Char → List Char
  | k, [] => List.replicate (min k 2) '\n'
  | k, '\n' :: rest => collapseNl3Aux (k + 1) rest
  | k, c :: rest => List.replicate (min k 2) '\n' ++ c :: collapseNl3Aux 0 rest

/-- Regex `' +\n' → '\n'`: drop spaces immediately preceding a newline. -/
def rmSpaceBeforeNl : List Char → List Char
  | [] => []
  | c :: rest =>
    let r := rmSpaceBeforeNl rest
    if c == ' ' then
      match r with
      | '\n' :: _ => r
      | _ => c :: r
    else c :: r

/-- Regex `'\n +' → '\n'`: drop spaces immediately following a newline.  The
boolean records whether the previous kept character was a newline. -/
def rmSpaceAfterNlAux : Bool → List Char → List Char
  | _, [] => []
  | afterNl, c :: rest =>
    if c == '\n' then '\n' :: rmSpaceAfterNlAux true rest
    else if afterNl && c == ' ' then rmSpaceAfterNlAux true rest
    else c :: rmSpaceAfterNlAux false rest

/-- Word-joining loop of `reconstruct_short_answer` (lines 65-71): every word
except the last (relative to `end_idx`) is followed by one space.  `i` is the
absolute index of the head word. -/
def shortJoinAux : List OCRWord → ℕ → ℕ → List Char
  | [], _, _ => []
  | w :: ws, i, e => w.text.data ++ (if i < e - 1 then [' '] else []) ++ shortJoinAux ws (i + 1) e

/-- `reconstruct_short_answer` from enhanced_vision_segmentation.py lines
56-76: flat space-join of `words[start_idx : min(end_idx, len(words))]`, then
space collapsing and strip. -/
def reconstruct_short_answer (words : List OCRWord) (start_idx end_idx : ℕ) : String :=
  String.mk (stripChars (collapseSpaces
    (shortJoinAux ((words.drop start_idx).take (min end_idx words.length - start_idx)) start_idx end_idx)))

/-- Separator chosen after `w` when `next` follows it (lines 167-179):
paragraph break, else single space on a line break, else the OCR space flag. -/
def longSeparator (w next : OCRWord) (avg_line_height dominant_x : ℚ) : List Char :=
  if detect_paragraph_boundary w next avg_line_height dominant_x then ['\n', '\n']
  else if w.break_type == .LINE_BREAK || w.break_type == .EOL_SURE_SPACE then [' ']
  else if w.has_space_after then [' ']
  else []

/-- Word walk of `reconstruct_long_answer` (lines 160-179) over the answer's
word slice; the last word gets no separator. -/
def longPartsAux (avg_line_height dominant_x : ℚ) : List OCRWord → List Char
  | [] => []
  | [w] => w.text.data
  | w :: next :: rest =>
    w.text.data ++ longSeparator w next avg_line_height dominant_x ++
      longPartsAux avg_line_height dominant_x (next :: rest)

/-- `reconstruct_long_answer` from enhanced_vision_segmentation.py lines
137-189: adaptive paragraph detection over `words[start_idx:end_idx]`, then
the four regex clean-ups and strip.  `is_handwritten` is accepted and unused,
as in the source. -/
def reconstruct_long_answer (words : List OCRWord) (start_idx end_idx : ℕ)
    (is_handwritten : Bool) : String :=
  let answer_words := (words.drop start_idx).take (end_idx - start_idx)
  if answer_words.isEmpty then ""
  else
    let avg_line_height := calculate_average_line_height answer_words
    let dominant_x := calculate_dominant_x_position answer_words
    String.mk (stripChars (rmSpaceAfterNlAux false (rmSpaceBeforeNl
      (collapseNl3Aux 0 (collapseSpaces (longPartsAux avg_line_height dominant_x answer_words))))))

/-- `reconstruct_answer_text_adaptive` from enhanced_vision_segmentation.py
lines 197-220: dispatch on `answer_type` ('long' versus anything else), whose
declared Python default is `'short'`. -/
def reconstruct_answer_text_adaptive (words : List OCRWord) (start_idx end_idx : ℕ)
    (is_handwritten : Bool) (answer_type : String) : String :=
  if answer_type == "long" then reconstruct_long_answer words start_idx end_idx is_handwritten
  else reconstruct_short_answer words start_idx end_idx

/-- The per-question answer-type selection of the heuristic path
(vision_segmentation.py `segment_answers`, lines 368-371):
`question_types.get(str(q_num), 'short')` when an answer key is configured,
else the configured default. -/
def segment_answers_answer_type (question_types : List (String × String))
    (default_answer_type : String) (q_num : ℕ) : String :=
  if question_types.isEmpty then default_answer_type
  else (alookup (Nat.repr q_num) question_types).getD "short"

/-- The reconstruction call the heuristic path actually makes for every
boundary (vision_segmentation.py lines 377-379):
`reconstruct_answer_text_adaptive(word_data, start_idx, end_idx,
is_handwritten=is_handwritten)`.  The source omits the `answer_type` argument,
so Python applies the declared default `'short'` regardless of the selected
type. -/
def segment_answers_reconstruct_call (word_data : List OCRWord) (start_idx end_idx : ℕ)
    (is_handwritten : Bool) : String :=
  reconstruct_answer_text_adaptive word_data start_idx end_idx is_handwritten "short"

/-! ### Student-submission evaluation (api/utils.py, lines 819-964)

`evaluate_student_with_exam_data` is embedded below;
`evaluate_student_submission` (lines 588-817) runs the identical
skip / scoring / OR-group logic after loading the same fields from storage
(differing only in using `question_marks[q_num]` instead of `.get(q_num, 0)`).

The per-question scoring calls — `evaluation_short_answer`, and
`smart_paragraph_split` plus `evaluation_long_answer` (a function imported by
utils.py but not defined anywhere in the repository) — depend on the external
embedding model, so they are modelled by an abstract score oracle
`score : question_type → student_answer → teacher_answer → max_marks → ℚ`.
The claims about this function concern only the skip and OR-group logic and
are proved for every oracle. -/

/-- Score oracle: question type, student answer, teacher answer, max marks. -/
abbrev ScoreFn := String → String → String → ℚ → ℚ

/-- An OR group as stored in the exam record. -/
inductive ORGroup where
  | single (options : List String)
  | pair (option_a option_b : List String)

/-- All question numbers of a group (used to build `or_question_map`). -/
def orMembers : ORGroup → List String
  | .single options => options
  | .pair option_a option_b => option_a ++ option_b

/-- The exam-record fields read by the evaluator. -/
structure ExamData where
  question_types : List (String × String)
  question_marks : List (String × ℚ)
  teacher_answers : List (String × String)
  or_groups : List ORGroup

/-- The per-question record stored into `or_group_scores`. -/
structure ScoreData where
  score : ℚ
  max_marks : ℚ
  q_label : String
  q_type : String
deriving DecidableEq

/-- One entry of `marks_breakdown`.  `or_group` and `chosen` carry the OR
metadata (the chosen option for a `single` group, the chosen side tag for a
`pair` group, empty for plain questions); the remaining metadata keys of the
source dicts are display-only and not modelled. -/
structure MarkEntry where
  q_label : String
  marks_obtained : ℚ
  max_marks : ℚ
  question_type : String
  or_group : Bool
  chosen : String
deriving DecidableEq

/-- Evaluation state: the breakdown, the two running totals, and
`or_group_scores`. -/
structure EvalState where
  marks_breakdown : List MarkEntry
  total_marks_obtained : ℚ
  total_marks_possible : ℚ
  or_group_scores : List (ℕ × List (String × ScoreData))

/-- `normalize_question_key(key, add_prefix=False)` (utils.py lines 563-586):
the first digit run of the label, `"0"` when there is none. -/
def normalize_question_key (key : String) : String :=
  let run := firstDigitRun key.data
  if run.isEmpty then "0" else String.mk run

/-- `or_question_map` (utils.py lines 841-848) as a function: the map is built
by ascending-index dict assignment, so the last group containing a question
wins. -/
def or_question_map (groups : List ORGroup) (q : String) : Option ℕ :=
  (groups.enum.reverse.find? (fun ig => (orMembers ig.2).contains q)).map (fun ig => ig.1)

/-- Python `or_group_scores[group_idx][q_num] = data` on the inner dict:
overwrite in place, or append. -/
def addScoreData (l : List (String × ScoreData)) (q : String) (d : ScoreData) :
    List (String × ScoreData) :=
  if (alookup q l).isSome then l.map (fun p => if p.1 = q then (p.1, d) else p)
  else l ++ [(q, d)]

/-- Python `or_group_scores[group_idx][q_num] = data` on the outer dict. -/
def addOrScore (os : List (ℕ × List (String × ScoreData))) (idx : ℕ) (q : String)
    (d : ScoreData) : List (ℕ × List (String × ScoreData)) :=
  if (os.find? (fun p => p.1 == idx)).isSome then
    os.map (fun p => if p.1 = idx then (p.1, addScoreData p.2 q d) else p)
  else os ++ [(idx, [(q, d)])]

/-- Body of the per-question loop (utils.py lines 853-903): skip when the
question number is absent from `question_types`, skip when the teacher answer
is missing or empty, skip unknown question types; otherwise score and route
either into an OR group's score dict or directly into the breakdown and
totals. -/
def processAnswer (exam : ExamData) (score : ScoreFn) (st : EvalState)
    (pa : String × String) : EvalState :=
  let q_label := pa.1
  let student_ans := pa.2
  let q_num := normalize_question_key q_label
  match alookup q_num exam.question_types with
  | none => st
  | some q_type =>
    let max_marks := (alookup q_num exam.question_marks).getD 0
    let teacher_ans := (alookup q_label exam.teacher_answers).getD ""
    if teacher_ans = "" then st
    else if q_type = "short" ∨ q_type = "long" then
      let s := score q_type student_ans teacher_ans max_marks
      match or_question_map exam.or_groups q_num with
      | some group_idx =>
        { st with or_group_scores := addOrScore st.or_group_scores group_idx q_num ⟨s, max_marks, q_label, q_type⟩ }
      | none =>
        { st with
          marks_breakdown := st.marks_breakdown ++ [⟨q_label, s, max_marks, q_type, false, ""⟩]
          total_marks_obtained := st.total_marks_obtained + s
          total_marks_possible := st.total_marks_possible + max_marks }
    else st

/-- One step of the best-of loop for a `single` group: replace the running
best on strict improvement of the score. -/
def singleStep (acc : Option (String × ScoreData) × ℚ) (p : String × ScoreData) :
    Option (String × ScoreData) × ℚ :=
  if acc.2 < p.2.score then (some p, p.2.score) else acc

/-- The best-of loop for a `single` group (utils.py lines 909-917):
`best_score` starts at -1 and is replaced on strict improvement. -/
def singleBest (gdata : List (String × ScoreData)) : Option (String × ScoreData) :=
  (gdata.foldl singleStep (none, -1)).1

/-- One step of the obtained / max summation over a `pair` side: questions the
student did not answer contribute nothing. -/
def sideStep (gdata : List (String × ScoreData)) (acc : ℚ × ℚ) (q : String) : ℚ × ℚ :=
  match alookup q gdata with
  | some d => (acc.1 + d.score, acc.2 + d.max_marks)
  | none => acc

/-- Obtained / max sums of one side of a `pair` group over the questions the
student actually answered (utils.py lines 933-936). -/
def sideSum (side : List String) (gdata : List (String × ScoreData)) : ℚ × ℚ :=
  side.foldl (sideStep gdata) (0, 0)

/-- Breakdown entries contributed by the chosen side of a `pair` group
(utils.py lines 949-961). -/
def pairEntries (side : List String) (gdata : List (String × ScoreData))
    (chosen_pair : String) : List MarkEntry :=
  side.filterMap (fun q =>
    (alookup q gdata).map (fun d => ⟨d.q_label, d.score, d.max_marks, d.q_type, true, chosen_pair⟩))

/-- OR-group resolution for one group (utils.py lines 906-964): a `single`
group contributes its best-scoring answered option; a `pair` group contributes
the side with the larger obtained sum (side `a` on ties). -/
def processOrGroup (groups : List ORGroup) (st : EvalState)
    (ig : ℕ × List (String × ScoreData)) : EvalState :=
  match groups.get? ig.1 with
  | none => st
  | some (ORGroup.single _) =>
    match singleBest ig.2 with
    | none => st
    | some (q, d) =>
      { st with
        marks_breakdown := st.marks_breakdown ++ [⟨d.q_label, d.score, d.max_marks, d.q_type, true, q⟩]
        total_marks_obtained := st.total_marks_obtained + d.score
        total_marks_possible := st.total_marks_possible + d.max_marks }
  | some (ORGroup.pair option_a option_b) =>
    let sa := sideSum option_a ig.2
    let sb := sideSum option_b ig.2
    if sb.1 ≤ sa.1 then
      { st with
        marks_breakdown := st.marks_breakdown ++ pairEntries option_a ig.2 "a"
        total_marks_obtained := st.total_marks_obtained + sa.1
        total_marks_possible := st.total_marks_possible + sa.2 }
    else
      { st with
        marks_breakdown := st.marks_breakdown ++ pairEntries option_b ig.2 "b"
        total_marks_obtained := st.total_marks_obtained + sb.1
        total_marks_possible := st.total_marks_possible + sb.2 }

/-- `evaluate_student_with_exam_data` (utils.py lines 819-964), reduced to its
result fields: fold the student answers, then resolve the collected OR
groups in first-seen order. -/
def evaluate_student_with_exam_data (exam : ExamData) (score : ScoreFn)
    (student_answers : List (String × String)) : EvalState :=
  let st1 := student_answers.foldl (processAnswer exam score) ⟨[], 0, 0, []⟩
  st1.or_group_scores.foldl (processOrGroup exam.or_groups) st1

/-- The skip condition of the evaluation loop, as a predicate of the label:
the question number is present in `question_types` and the teacher answer
looked up under the full label is non-empty. -/
def evaluableLabel (exam : ExamData) (l : String) : Bool :=
  (alookup (normalize_question_key l) exam.question_types).isSome &&
    ((alookup l exam.teacher_answers).getD "" != "")

/-! ### Specification-side helper definitions

These definitions state properties claimed by the specification; they are not
translations of source code. -/

/-- Maximum of a list of reals (0 for the empty list; the claims only use it
on non-empty lists). -/
noncomputable def listMax : List ℝ → ℝ
  | [] => 0
  | x :: xs => xs.foldl max x

/-- The specification's phrase "`m` is `x` rounded to the nearest 0.5": `m` is
an integer multiple of one half and no such multiple is strictly closer to
`x`. -/
def isNearestHalfOf (m x : ℝ) : Prop :=
  (∃ k : ℤ, m = (k : ℝ) / 2) ∧ ∀ j : ℤ, |x - m| ≤ |x - (j : ℝ) / 2|

/-- Concrete two-word page used to exhibit the reconstruction dispatch of the
heuristic path: a hard line break and an 80px vertical gap separate the words,
so the long-answer algorithm inserts a paragraph break where the short-answer
algorithm joins with a space. -/
def demoWords : List OCRWord :=
  [⟨"alpha", 0, 0, 10, 20, BreakType.LINE_BREAK, true⟩,
   ⟨"beta", 0, 100, 10, 120, BreakType.LINE_BREAK, true⟩]

/-- Concrete exam with one `single` OR group whose options carry different
maximum marks (question 1 is worth 2, question 2 is worth 5). -/
def orExam : ExamData :=
  { question_types := [("1", "short"), ("2", "short")]
    question_marks := [("1", 2), ("2", 5)]
    teacher_answers := [("Q1", "teacher answer one"), ("Q2", "teacher answer two")]
    or_groups := [ORGroup.single ["1", "2"]] }

/-- Student answers for `orExam`: both OR options answered. -/
def orAnswers : List (String × String) :=
  [("Q1", "student text one"), ("Q2", "student text two")]

/-- Score oracle under which the student does better on question 1. -/
def scoreFavoursQ1 : ScoreFn :=
  fun _ _ teacher_ans _ => if teacher_ans = "teacher answer one" then 1 else 0

/-- Score oracle under which the student does better on question 2. -/
def scoreFavoursQ2 : ScoreFn :=
  fun _ _ teacher_ans _ => if teacher_ans = "teacher answer one" then 0 else 1

/-- Concrete exam used for the skip-logic witness: one short question worth 3
marks with teacher answer stored under `"Q1"`. -/
def skipExam : ExamData :=
  { question_types := [("1", "short")]
    question_marks := [("1", 3)]
    teacher_answers := [("Q1", "the teacher answer")]
    or_groups := [] }

/-- Student answers for `skipExam`: `"Q7"` has no entry in the key. -/
def skipAnswers : List (String × String) :=
  [("Q1", "an answer"), ("Q7", "stray answer")]

/-- A constant score oracle for concrete evaluations. -/
def constScore : ScoreFn := fun _ _ _ _ => 2

/-! ## Theorems -/

/-! ### C8 — smart_paragraph_split -/

/-- C8.  The claim states that `smart_paragraph_split` splits on double
newlines, retries on single newlines when at most 2 chunks result, falls back
to sentence grouping, splits any chunk longer than 300 characters into
2-sentence sub-chunks, and returns normally without raising.  The staged
splitting is as claimed (second and third conjuncts show the double-newline
and single-newline stages on concrete inputs), but the over-300 branch reads
the undefined local `sentences` (valuation.py line 61) and raises
`UnboundLocalError` on every input containing a chunk longer than 300
characters: the first conjunct evaluates the embedded function at the
failing input, a single 301-character paragraph. -/
theorem spec_c8_code_bug :
    smart_paragraph_split (String.mk (List.replicate 301 'x'))
      = Except.error "UnboundLocalError: sentences referenced before assignment"
    ∧ smart_paragraph_split "first paragraph\n\nsecond paragraph\n\nthird paragraph"
      = Except.ok ["first paragraph", "second paragraph", "third paragraph"]
    ∧ smart_paragraph_split "line one\nline two\nline three"
      = Except.ok ["line one", "line two", "line three"] := by
  set_option maxRecDepth 20000 in
  exact ⟨rfl, rfl, rfl⟩

/-! ### C5 — merge_multi_page_result -/

theorem mem_insertByLabelNum {p x : String × String} :
    ∀ {l : List (String × String)}, x ∈ insertByLabelNum p l → x = p ∨ x ∈ l := by
  intro l
  induction l with
  | nil =>
    intro h
    simp [insertByLabelNum] at h
    exact Or.inl h
  | cons q rest ih =>
    simp only [insertByLabelNum]
    split
    · intro h
      rcases List.mem_cons.mp h with h | h
      · exact Or.inl h
      · exact Or.inr h
    · intro h
      rcases List.mem_cons.mp h with h | h
      · exact Or.inr (List.mem_cons.mpr (Or.inl h))
      · rcases ih h with h | h
        · exact Or.inl h
        · exact Or.inr (List.mem_cons.mpr (Or.inr h))

theorem pairwise_insertByLabelNum {p : String × String} {l : List (String × String)}
    (h : l.Pairwise (fun a b => labelNum a.1 ≤ labelNum b.1)) :
    (insertByLabelNum p l).Pairwise (fun a b => labelNum a.1 ≤ labelNum b.1) := by
  induction l with
  | nil => simp [insertByLabelNum]
  | cons q rest ih =>
    rcases List.pairwise_cons.mp h with ⟨hq, hrest⟩
    simp only [insertByLabelNum]
    split
    · rename_i hle
      refine List.pairwise_cons.mpr ⟨?_, h⟩
      intro x hx
      rcases List.mem_cons.mp hx with rfl | hx
      · exact hle
      · exact le_trans hle (hq x hx)
    · rename_i hgt
      refine List.pairwise_cons.mpr ⟨?_, ih hrest⟩
      intro x hx
      rcases mem_insertByLabelNum hx with rfl | hx
      · exact le_of_not_le hgt
      · exact hq x hx

theorem pairwise_sortByLabelNum (l : List (String × String)) :
    (sortByLabelNum l).Pairwise (fun a b => labelNum a.1 ≤ labelNum b.1) := by
  induction l with
  | nil => simp [sortByLabelNum]
  | cons p rest ih => exact pairwise_insertByLabelNum ih

theorem alookup_updateVal (merged : List (String × String)) (k : String) (f : String → String) :
    alookup k (updateVal merged k f) = (alookup k merged).map f := by
  induction merged with
  | nil => rfl
  | cons p rest ih =>
    by_cases hp : p.1 = k
    · simp [updateVal, alookup, hp]
    · simpa [updateVal, alookup, hp] using ih

/-- C5.  Multi-page merging: the final answer map is sorted ascending by the
numeric value embedded in each label; a label not yet present starts a new
entry at the end; a label already present gets the page's stripped text
appended space-joined, without disturbing its stored value; a page whose only
content is `UNLABELED_CONTINUATION` appends its text to the most recently
seen label; and when no label has been seen at all, such a page seeds the
entry `"Q1"`. -/
theorem spec_c5 :
    (∀ pages, (merge_multi_page_result pages).answers.Pairwise
        (fun a b => labelNum a.1 ≤ labelNum b.1))
    ∧ (∀ merged (last : Option String) l t, hasKey merged l = false →
        processLabel (merged, last) (l, t) = (merged ++ [(l, pyStrip t)], some l))
    ∧ (∀ merged (last : Option String) l t v, alookup l merged = some v →
        alookup l (processLabel (merged, last) (l, t)).1 = some (v ++ " " ++ pyStrip t)
        ∧ (processLabel (merged, last) (l, t)).2 = some l)
    ∧ (∀ merged q txt v, q ≠ "" → alookup q merged = some v →
        alookup q (mergePage (merged, some q) [("UNLABELED_CONTINUATION", txt)]).1
            = some (v ++ " " ++ pyStrip txt)
        ∧ (mergePage (merged, some q) [("UNLABELED_CONTINUATION", txt)]).2 = some q)
    ∧ (∀ txt, mergePage (([] : List (String × String)), none)
        [("UNLABELED_CONTINUATION", txt)] = ([("Q1", pyStrip txt)], some "Q1")) := by
  refine ⟨?_, ?_, ?_, ?_, ?_⟩
  · intro pages
    exact pairwise_sortByLabelNum _
  · intro merged last l t h
    simp [processLabel, h]
  · intro merged last l t v h
    have hk : hasKey merged l = true := by simp [hasKey, h]
    constructor
    · simp [processLabel, hk, alookup_updateVal, h]
    · simp [processLabel, hk]
  · intro merged q txt v hq h
    have hk : hasKey merged q = true := by simp [hasKey, h]
    have hstep : mergePage (merged, some q) [("UNLABELED_CONTINUATION", txt)]
        = (updateVal merged q (fun w => w ++ " " ++ pyStrip txt), some q) := by
      simp [mergePage, popKey, alookup, removeKey, processUnlabeled, hq, hk]
    rw [hstep]
    simp [alookup_updateVal, h]
  · intro txt
    rfl

/-- Closed witness for C5: appending unlabeled text to the last seen label on
a concrete merged state, with every hypothesis discharged concretely. -/
theorem spec_c5_witness :
    ("Q2" : String) ≠ ""
    ∧ alookup "Q2" [("Q2", "start")] = some "start"
    ∧ alookup "Q2" (mergePage ([("Q2", "start")], some "Q2")
        [("UNLABELED_CONTINUATION", " more ")]).1 = some ("start" ++ " " ++ pyStrip " more ") := by
  refine ⟨by decide, by decide, ?_⟩
  exact (spec_c5.2.2.2.1 [("Q2", "start")] "Q2" " more " "start" (by decide) (by decide)).1

/-! ### C6 — question-label recognizers -/

theorem isGeometryLead_iff (c : Char) :
    isGeometryLead c = true ↔ (c = 'Q' ∨ c = 'q' ∨ c = '0' ∨ c = 'O') := by
  simp [isGeometryLead, or_assoc]

/-- Counterexample to C6.  The claim asserts that the question-label
recognizer rejects the bare-number and punctuated forms `"1"`, `"1:"`, `"1."`
and accepts `"O3"`, citing both `parse_question_label` and
`is_question_label`.  The heuristic recognizer `is_question_label`
(vision_segmentation.py lines 38-58) accepts all three rejected forms through
its `^(\d+)$` and `^[Qq@]?\s*(\d+)\s*[:\.\)]` patterns, and rejects `"O3"`
because its leading class is `[Qq@]`, not `[Qq0O]`. -/
theorem spec_c6_counterexample :
    is_question_label "1" = some 1
    ∧ is_question_label "1:" = some 1
    ∧ is_question_label "1." = some 1
    ∧ is_question_label "O3" = none := by
  exact ⟨rfl, rfl, rfl, rfl⟩

/-- C6, amended.  The geometry-path recognizer `parse_question_label` accepts
a word exactly when its stripped text is an OCR-confusable leading character
for "Q" (Q, q, 0, O) followed by one or more digits whose value lies in
[1, 50]; in particular it accepts "Q1", "q7", "Q12", "O3", "01" and rejects
"1", "1:", "1.", "12x".  The heuristic-path recognizer `is_question_label` is
more permissive: it additionally accepts the bare and punctuated numeric
forms "1", "1:", "1." (while still rejecting "12x"), and it does not treat
`O` as a Q-substitute. -/
theorem spec_c6_amended :
    (∀ (s : String) (n : ℕ), parse_question_label s = some n ↔
      ∃ c ds, stripChars s.data = c :: ds ∧ (c = 'Q' ∨ c = 'q' ∨ c = '0' ∨ c = 'O')
        ∧ ds ≠ [] ∧ ds.all Char.isDigit = true ∧ digitsToNat ds = n ∧ 1 ≤ n ∧ n ≤ 50)
    ∧ parse_question_label "Q1" = some 1
    ∧ parse_question_label "q7" = some 7
    ∧ parse_question_label "Q12" = some 12
    ∧ parse_question_label "O3" = some 3
    ∧ parse_question_label "01" = some 1
    ∧ parse_question_label "1" = none
    ∧ parse_question_label "1:" = none
    ∧ parse_question_label "1." = none
    ∧ parse_question_label "12x" = none
    ∧ is_question_label "1" = some 1
    ∧ is_question_label "1:" = some 1
    ∧ is_question_label "1." = some 1
    ∧ is_question_label "12x" = none
    ∧ is_question_label "O3" = none := by
  refine ⟨?_, rfl, rfl, rfl, rfl, rfl, rfl, rfl, rfl, rfl, rfl, rfl, rfl, rfl, rfl⟩
  intro s n
  constructor
  · intro hp
    rcases hstrip : stripChars s.data with _ | ⟨c, ds⟩
    · simp only [parse_question_label, hstrip] at hp
      exact absurd hp (by simp)
    · simp only [parse_question_label, hstrip] at hp
      by_cases hcond : isGeometryLead c = true ∧ ds ≠ [] ∧ ds.all Char.isDigit = true
      · rw [if_pos hcond] at hp
        by_cases hr : 1 ≤ digitsToNat ds ∧ digitsToNat ds ≤ 50
        · rw [if_pos hr] at hp
          have hn : digitsToNat ds = n := Option.some_inj.mp hp
          exact ⟨c, ds, rfl, (isGeometryLead_iff c).mp hcond.1, hcond.2.1, hcond.2.2,
            hn, hn ▸ hr.1, hn ▸ hr.2⟩
        · rw [if_neg hr] at hp
          exact absurd hp (by simp)
      · rw [if_neg hcond] at hp
        exact absurd hp (by simp)
  · rintro ⟨c, ds, hstrip, hc, hne, hall, rfl, h1, h50⟩
    simp only [parse_question_label, hstrip]
    rw [if_pos ⟨(isGeometryLead_iff c).mpr hc, hne, hall⟩, if_pos ⟨h1, h50⟩]

/-- Closed witness for C6: the characterization applied at `"Q12"`. -/
theorem spec_c6_witness :
    parse_question_label "Q12" = some 12
    ∧ ∃ c ds, stripChars ("Q12" : String).data = c :: ds
        ∧ (c = 'Q' ∨ c = 'q' ∨ c = '0' ∨ c = 'O') ∧ ds ≠ [] ∧ ds.all Char.isDigit = true
        ∧ digitsToNat ds = 12 ∧ 1 ≤ 12 ∧ 12 ≤ 50 := by
  exact ⟨rfl, (spec_c6_amended.1 "Q12" 12).mp rfl⟩

/-! ### C7 — question spans -/

/-- Counterexample to C7.  The claim asserts that no row of the page belongs
to zero spans.  With a single label at row 1 on a 3-row page, the spans are
exactly one span covering rows 1-2, and row 0 belongs to no span: the rows
before the first label are not covered. -/
theorem spec_c7_counterexample :
    (build_question_spans [(1, 5)] 3).map (fun sp => (sp.q_number, sp.start_row, sp.end_row))
      = [(5, 1, 2)]
    ∧ ∀ sp ∈ build_question_spans [(1, 5)] 3, ¬ (sp.start_row ≤ 0 ∧ 0 ≤ sp.end_row) := by
  exact ⟨by decide, by decide⟩

theorem mem_insertByRow {p x : ℕ × ℕ} :
    ∀ {l : List (ℕ × ℕ)}, x ∈ insertByRow p l → x = p ∨ x ∈ l := by
  intro l
  induction l with
  | nil =>
    intro h
    simp [insertByRow] at h
    exact Or.inl h
  | cons q rest ih =>
    simp only [insertByRow]
    split
    · intro h
      rcases List.mem_cons.mp h with h | h
      · exact Or.inl h
      · exact Or.inr h
    · intro h
      rcases List.mem_cons.mp h with h | h
      · exact Or.inr (List.mem_cons.mpr (Or.inl h))
      · rcases ih h with h | h
        · exact Or.inl h
        · exact Or.inr (List.mem_cons.mpr (Or.inr h))

theorem pairwise_insertByRow {p : ℕ × ℕ} {l : List (ℕ × ℕ)}
    (h : l.Pairwise (fun a b => a.1 ≤ b.1)) :
    (insertByRow p l).Pairwise (fun a b => a.1 ≤ b.1) := by
  induction l with
  | nil => simp [insertByRow]
  | cons q rest ih =>
    rcases List.pairwise_cons.mp h with ⟨hq, hrest⟩
    simp only [insertByRow]
    split
    · rename_i hle
      refine List.pairwise_cons.mpr ⟨?_, h⟩
      intro x hx
      rcases List.mem_cons.mp hx with rfl | hx
      · exact hle
      · exact le_trans hle (hq x hx)
    · rename_i hgt
      refine List.pairwise_cons.mpr ⟨?_, ih hrest⟩
      intro x hx
      rcases mem_insertByRow hx with rfl | hx
      · exact le_of_not_le hgt
      · exact hq x hx

theorem pairwise_sortByRow (l : List (ℕ × ℕ)) :
    (sortByRow l).Pairwise (fun a b => a.1 ≤ b.1) := by
  induction l with
  | nil => simp [sortByRow]
  | cons p rest ih => exact pairwise_insertByRow ih

theorem perm_insertByRow (p : ℕ × ℕ) (l : List (ℕ × ℕ)) :
    List.Perm (insertByRow p l) (p :: l) := by
  induction l with
  | nil => rfl
  | cons q rest ih =>
    simp only [insertByRow]
    split
    · rfl
    · exact (ih.cons q).trans (List.Perm.swap p q rest)

theorem perm_sortByRow (l : List (ℕ × ℕ)) : List.Perm (sortByRow l) l := by
  induction l with
  | nil => rfl
  | cons p rest ih => exact (perm_insertByRow p (sortByRow rest)).trans (ih.cons p)

theorem pairwise_lt_of_le_of_ne :
    ∀ {l : List (ℕ × ℕ)}, l.Pairwise (fun a b => a.1 ≤ b.1) →
      l.Pairwise (fun a b => a.1 ≠ b.1) → l.Pairwise (fun a b => a.1 < b.1) := by
  intro l
  induction l with
  | nil =>
    intro _ _
    exact List.Pairwise.nil
  | cons p rest ih =>
    intro hle hne
    rcases List.pairwise_cons.mp hle with ⟨h1, h2⟩
    rcases List.pairwise_cons.mp hne with ⟨h3, h4⟩
    exact List.pairwise_cons.mpr ⟨fun x hx => lt_of_le_of_ne (h1 x hx) (h3 x hx), ih h2 h4⟩

theorem pairwise_lt_sortByRow {l : List (ℕ × ℕ)} (hnd : (l.map Prod.fst).Nodup) :
    (sortByRow l).Pairwise (fun a b => a.1 < b.1) := by
  have hnd2 : ((sortByRow l).map Prod.fst).Nodup :=
    (List.Perm.map Prod.fst (perm_sortByRow l)).symm.nodup hnd
  exact pairwise_lt_of_le_of_ne (pairwise_sortByRow l) (List.pairwise_map.mp hnd2)

theorem spansFromSorted_map_start (l : List (ℕ × ℕ)) (total_rows : ℕ) :
    (spansFromSorted l total_rows).map QuestionSpan.start_row = l.map Prod.fst := by
  induction l with
  | nil => rfl
  | cons p rest ih =>
    cases rest with
    | nil => rfl
    | cons p2 rest2 => simpa [spansFromSorted] using ih

theorem spansFromSorted_countP :
    ∀ (l : List (ℕ × ℕ)) (total_rows : ℕ), l.Pairwise (fun a b => a.1 < b.1) →
      (∀ p ∈ l, p.1 < total_rows) → ∀ r : ℕ,
      (spansFromSorted l total_rows).countP
          (fun sp => decide (sp.start_row ≤ r ∧ r ≤ sp.end_row))
        = match l with
          | [] => 0
          | (r0, _) :: _ => if r0 ≤ r ∧ r < total_rows then 1 else 0 := by
  intro l
  induction l with
  | nil => intro total_rows _ _ r; rfl
  | cons p rest ih =>
    obtain ⟨r0, q0⟩ := p
    cases rest with
    | nil =>
      intro total_rows _ hlt r
      have h0 : r0 < total_rows := hlt (r0, q0) (by simp)
      simp only [spansFromSorted, List.countP_cons, List.countP_nil, decide_eq_true_eq]
      split_ifs <;> omega
    | cons p2 rest2 =>
      obtain ⟨r1, q1⟩ := p2
      intro total_rows hp hlt r
      have h01 : r0 < r1 := (List.pairwise_cons.mp hp).1 (r1, q1) (by simp)
      have h1t : r1 < total_rows := hlt (r1, q1) (by simp)
      have ih2 := ih total_rows (List.pairwise_cons.mp hp).2
        (fun x hx => hlt x (List.mem_cons_of_mem _ hx)) r
      simp only [spansFromSorted, List.countP_cons, decide_eq_true_eq] at ih2 ⊢
      rw [ih2]
      split_ifs <;> omega

/-- C7, amended.  For a non-empty label set with distinct rows all lying on
the page, the spans are built from the labels sorted by row position (their
start rows are exactly the sorted label rows), and they are contiguous and
exhaustive from the first label's row to the end of the page: a row lies in
exactly one span precisely when it is at or below the first (smallest) label
row and before `total_rows`.  Rows above the first label are covered by no
span, which is the one departure from the claim's "no row belongs to zero
spans". -/
theorem spec_c7_amended (pairs : List (ℕ × ℕ)) (total_rows : ℕ)
    (hne : pairs ≠ []) (hnd : (pairs.map Prod.fst).Nodup)
    (hlt : ∀ p ∈ pairs, p.1 < total_rows) :
    (build_question_spans pairs total_rows).map QuestionSpan.start_row
        = (sortByRow pairs).map Prod.fst
    ∧ ∀ (r r0 q0 : ℕ) (rest : List (ℕ × ℕ)), sortByRow pairs = (r0, q0) :: rest →
        ((build_question_spans pairs total_rows).countP
            (fun sp => decide (sp.start_row ≤ r ∧ r ≤ sp.end_row)) = 1
          ↔ r0 ≤ r ∧ r < total_rows) := by
  have hempty : pairs.isEmpty = false := by
    cases pairs with
    | nil => exact absurd rfl hne
    | cons p rest => rfl
  have hbuild : build_question_spans pairs total_rows
      = spansFromSorted (sortByRow pairs) total_rows := by
    simp [build_question_spans, hempty]
  constructor
  · rw [hbuild, spansFromSorted_map_start]
  · intro r r0 q0 rest hsort
    have hcnt := spansFromSorted_countP (sortByRow pairs) total_rows
      (pairwise_lt_sortByRow hnd)
      (fun x hx => hlt x ((perm_sortByRow pairs).subset hx)) r
    rw [hsort] at hcnt
    have hcnt2 : (spansFromSorted ((r0, q0) :: rest) total_rows).countP
        (fun sp => decide (sp.start_row ≤ r ∧ r ≤ sp.end_row))
        = if r0 ≤ r ∧ r < total_rows then 1 else 0 := hcnt
    rw [hbuild, hsort, hcnt2]
    split_ifs with h
    · simp [h]
    · simp [h]

/-- Closed witness for C7: the amended coverage characterization applied on a
concrete two-label page. -/
theorem spec_c7_witness :
    (([(2, 7), (0, 3)] : List (ℕ × ℕ)) ≠ [])
    ∧ (([(2, 7), (0, 3)] : List (ℕ × ℕ)).map Prod.fst).Nodup
    ∧ (∀ p ∈ ([(2, 7), (0, 3)] : List (ℕ × ℕ)), p.1 < 5)
    ∧ sortByRow [(2, 7), (0, 3)] = [(0, 3), (2, 7)]
    ∧ ((build_question_spans [(2, 7), (0, 3)] 5).countP
          (fun sp => decide (sp.start_row ≤ 4 ∧ 4 ≤ sp.end_row)) = 1
        ↔ 0 ≤ 4 ∧ 4 < 5) :=
  ⟨by decide, by decide, by decide, by decide,
   (spec_c7_amended [(2, 7), (0, 3)] 5 (by decide) (by decide) (by decide)).2
     4 0 3 [(2, 7)] (by decide)⟩

/-! ### C9 — answer-type dispatch of the reconstructors -/

/-- C9.  The claim states that both segmentation paths select between the flat
short-answer join and the paragraph-aware long-answer reconstruction according
to the question's declared answer type.  The geometry path does
(sheet_geometry_segmentation.py lines 481-484), and
`reconstruct_answer_text_adaptive` does dispatch on its `answer_type`
parameter (third conjunct), but the heuristic path `segment_answers`
(vision_segmentation.py line 377) calls `reconstruct_answer_text_adaptive`
without passing `answer_type`, so the default `'short'` applies to every
question: for a question declared `'long'` (first conjunct) the heuristic path
still produces the flat short join (second conjunct), which differs from the
long reconstruction (fourth conjunct).  This contradicts the function's own
documented dispatch parameter and the logging in `segment_answers` that
reports the answer as processed with the selected type. -/
theorem spec_c9_code_bug :
    segment_answers_answer_type [("3", "long")] "short" 3 = "long"
    ∧ segment_answers_reconstruct_call demoWords 0 2 true = "alpha beta"
    ∧ reconstruct_answer_text_adaptive demoWords 0 2 true "long" = "alpha\n\nbeta"
    ∧ ("alpha beta" : String) ≠ "alpha\n\nbeta" := by
  refine ⟨rfl, rfl, ?_, by decide⟩
  norm_num [reconstruct_answer_text_adaptive, reconstruct_long_answer, demoWords,
    calculate_average_line_height, calculate_dominant_x_position, sortQ, insertQ,
    placeXAux, maxByLen, longPartsAux, longSeparator, detect_paragraph_boundary,
    isBulletWord, endsSentence, bulletChars, rstripChars, stripChars, collapseSpaces,
    collapseNl3Aux, rmSpaceBeforeNl, rmSpaceAfterNlAux, List.filter, pyIsSpace]
  decide

/-! ### C10 — skipping questions absent from the teacher's key -/

theorem processAnswer_skip (exam : ExamData) (score : ScoreFn) (st : EvalState)
    (pa : String × String) (h : evaluableLabel exam pa.1 = false) :
    processAnswer exam score st pa = st := by
  cases hqt : alookup (normalize_question_key pa.1) exam.question_types with
  | none => simp [processAnswer, hqt]
  | some q_type =>
    have hta : (alookup pa.1 exam.teacher_answers).getD "" = "" := by
      simp [evaluableLabel, hqt] at h
      exact h
    simp [processAnswer, hqt, hta]

theorem foldl_processAnswer_filter (exam : ExamData) (score : ScoreFn) :
    ∀ (sa : List (String × String)) (st : EvalState),
      sa.foldl (processAnswer exam score) st
        = (sa.filter (fun p => evaluableLabel exam p.1)).foldl (processAnswer exam score) st := by
  intro sa
  induction sa with
  | nil => intro st; rfl
  | cons p rest ih =>
    intro st
    by_cases h : evaluableLabel exam p.1 = true
    · simp only [List.foldl_cons, List.filter_cons, h, if_true]
      exact ih _
    · have hf : evaluableLabel exam p.1 = false := by
        simpa using h
      simp only [List.foldl_cons, List.filter_cons, hf, Bool.false_eq_true, if_false,
        processAnswer_skip exam score st p hf]
      exact ih _

theorem alookup_mem {α : Type} {k : String} {v : α} :
    ∀ {l : List (String × α)}, alookup k l = some v → (k, v) ∈ l := by
  intro l
  induction l with
  | nil => intro h; exact absurd h (by simp [alookup])
  | cons p rest ih =>
    intro h
    by_cases hp : p.1 = k
    · simp only [alookup, hp, if_true] at h
      have : p = (k, v) := by
        obtain ⟨p1, p2⟩ := p
        simp_all
      exact this ▸ List.mem_cons_self p rest
    · simp only [alookup, hp, if_false] at h
      exact List.mem_cons_of_mem _ (ih h)

theorem mem_addScoreData {l : List (String × ScoreData)} {q : String} {d : ScoreData}
    {x : String × ScoreData} (hx : x ∈ addScoreData l q d) : x = (q, d) ∨ x ∈ l := by
  unfold addScoreData at hx
  split at hx
  · rcases List.mem_map.mp hx with ⟨p, hp, heq⟩
    by_cases hpq : p.1 = q
    · rw [if_pos hpq] at heq
      exact Or.inl (heq ▸ by rw [hpq])
    · rw [if_neg hpq] at heq
      exact Or.inr (heq ▸ hp)
  · rcases List.mem_append.mp hx with h | h
    · exact Or.inr h
    · simp at h
      exact Or.inl h

theorem mem_addOrScore {os : List (ℕ × List (String × ScoreData))} {idx : ℕ} {q : String}
    {d : ScoreData} {ig : ℕ × List (String × ScoreData)} (hig : ig ∈ addOrScore os idx q d) :
    ∀ x ∈ ig.2, x = (q, d) ∨ ∃ ig2 ∈ os, x ∈ ig2.2 := by
  unfold addOrScore at hig
  split at hig
  · rcases List.mem_map.mp hig with ⟨p, hp, heq⟩
    by_cases hpi : p.1 = idx
    · rw [if_pos hpi] at heq
      intro x hx
      rw [← heq] at hx
      rcases mem_addScoreData hx with h | h
      · exact Or.inl h
      · exact Or.inr ⟨p, hp, h⟩
    · rw [if_neg hpi] at heq
      intro x hx
      exact Or.inr ⟨p, hp, heq ▸ hx⟩
  · rcases List.mem_append.mp hig with h | h
    · intro x hx
      exact Or.inr ⟨ig, h, hx⟩
    · simp at h
      intro x hx
      rw [h] at hx
      simp at hx
      exact Or.inl hx

theorem processAnswer_good (exam : ExamData) (score : ScoreFn) (st : EvalState)
    (pa : String × String)
    (h1 : ∀ e ∈ st.marks_breakdown, evaluableLabel exam e.q_label = true)
    (h2 : ∀ ig ∈ st.or_group_scores, ∀ x ∈ ig.2, evaluableLabel exam x.2.q_label = true) :
    (∀ e ∈ (processAnswer exam score st pa).marks_breakdown,
        evaluableLabel exam e.q_label = true)
    ∧ (∀ ig ∈ (processAnswer exam score st pa).or_group_scores,
        ∀ x ∈ ig.2, evaluableLabel exam x.2.q_label = true) := by
  cases hqt : alookup (normalize_question_key pa.1) exam.question_types with
  | none =>
    simp only [processAnswer, hqt]
    exact ⟨h1, h2⟩
  | some q_type =>
    by_cases hta : (alookup pa.1 exam.teacher_answers).getD "" = ""
    · simp only [processAnswer, hqt, hta, if_true]
      exact ⟨h1, h2⟩
    · have hev : evaluableLabel exam pa.1 = true := by
        simp [evaluableLabel, hqt]
        simpa using hta
      by_cases hty : q_type = "short" ∨ q_type = "long"
      · cases hor : or_question_map exam.or_groups (normalize_question_key pa.1) with
        | some idx =>
          simp only [processAnswer, hqt, hta, if_neg hta, if_pos hty, hor]
          refine ⟨h1, ?_⟩
          intro ig hig x hx
          rcases mem_addOrScore hig x hx with h | ⟨ig2, hig2, hxig2⟩
          · rw [h]
            exact hev
          · exact h2 ig2 hig2 x hxig2
        | none =>
          simp only [processAnswer, hqt, hta, if_neg hta, if_pos hty, hor]
          refine ⟨?_, h2⟩
          intro e he
          rcases List.mem_append.mp he with h | h
          · exact h1 e h
          · simp at h
            rw [h]
            exact hev
      · simp only [processAnswer, hqt, hta, if_neg hta, if_neg hty]
        exact ⟨h1, h2⟩

theorem singleStep_fst_mem :
    ∀ (g : List (String × ScoreData)) (a : Option (String × ScoreData)) (v : ℚ)
      (p : String × ScoreData), (g.foldl singleStep (a, v)).1 = some p → p ∈ g ∨ a = some p := by
  intro g
  induction g with
  | nil =>
    intro a v p h
    exact Or.inr h
  | cons x rest ih =>
    intro a v p h
    simp only [List.foldl_cons] at h
    by_cases hc : v < x.2.score
    · simp only [singleStep, if_pos hc] at h
      rcases ih _ _ _ h with h2 | h2
      · exact Or.inl (List.mem_cons_of_mem _ h2)
      · exact Or.inl (List.mem_cons.mpr (Or.inl (Option.some_inj.mp h2).symm))
    · simp only [singleStep, if_neg hc] at h
      rcases ih _ _ _ h with h2 | h2
      · exact Or.inl (List.mem_cons_of_mem _ h2)
      · exact Or.inr h2

theorem singleBest_mem {gdata : List (String × ScoreData)} {p : String × ScoreData}
    (h : singleBest gdata = some p) : p ∈ gdata := by
  rcases singleStep_fst_mem gdata none (-1) p h with h2 | h2
  · exact h2
  · exact absurd h2 (by simp)

theorem pairEntries_mem {side : List String} {gdata : List (String × ScoreData)}
    {tag : String} {e : MarkEntry} (he : e ∈ pairEntries side gdata tag) :
    ∃ x ∈ gdata, e.q_label = x.2.q_label := by
  rcases List.mem_filterMap.mp he with ⟨q, _, hq⟩
  cases hd : alookup q gdata with
  | none => rw [hd] at hq; exact absurd hq (by simp)
  | some d =>
    rw [hd] at hq
    simp only [Option.map_some'] at hq
    exact ⟨(q, d), alookup_mem hd, by rw [← Option.some_inj.mp hq]⟩

theorem processOrGroup_breakdown_mem (groups : List ORGroup) (st : EvalState)
    (ig : ℕ × List (String × ScoreData)) (e : MarkEntry)
    (he : e ∈ (processOrGroup groups st ig).marks_breakdown) :
    e ∈ st.marks_breakdown ∨ ∃ x ∈ ig.2, e.q_label = x.2.q_label := by
  unfold processOrGroup at he
  cases hget : groups.get? ig.1 with
  | none =>
    rw [hget] at he
    exact Or.inl he
  | some g =>
    rw [hget] at he
    cases g with
    | single options =>
      cases hbest : singleBest ig.2 with
      | none =>
        rw [hbest] at he
        exact Or.inl he
      | some p =>
        obtain ⟨q, d⟩ := p
        rw [hbest] at he
        simp only at he
        rcases List.mem_append.mp he with h | h
        · exact Or.inl h
        · simp at h
          exact Or.inr ⟨(q, d), singleBest_mem hbest, by rw [h]⟩
    | pair option_a option_b =>
      simp only at he
      split at he
      · rcases List.mem_append.mp he with h | h
        · exact Or.inl h
        · exact Or.inr (pairEntries_mem h)
      · rcases List.mem_append.mp he with h | h
        · exact Or.inl h
        · exact Or.inr (pairEntries_mem h)

theorem foldl_processOrGroup_good (exam : ExamData) (groups : List ORGroup) :
    ∀ (L : List (ℕ × List (String × ScoreData))) (st : EvalState),
      (∀ ig ∈ L, ∀ x ∈ ig.2, evaluableLabel exam x.2.q_label = true) →
      (∀ e ∈ st.marks_breakdown, evaluableLabel exam e.q_label = true) →
      ∀ e ∈ (L.foldl (processOrGroup groups) st).marks_breakdown,
        evaluableLabel exam e.q_label = true := by
  intro L
  induction L with
  | nil =>
    intro st _ h1 e he
    exact h1 e he
  | cons ig rest ih =>
    intro st hL h1 e he
    simp only [List.foldl_cons] at he
    refine ih _ (fun ig2 hig2 => hL ig2 (List.mem_cons_of_mem _ hig2)) ?_ e he
    intro e2 he2
    rcases processOrGroup_breakdown_mem groups st ig e2 he2 with h | ⟨x, hx, heq⟩
    · exact h1 e2 h
    · rw [heq]
      exact hL ig (List.mem_cons_self _ _) x hx

theorem foldl_processAnswer_good (exam : ExamData) (score : ScoreFn) :
    ∀ (sa : List (String × String)) (st : EvalState),
      (∀ e ∈ st.marks_breakdown, evaluableLabel exam e.q_label = true) →
      (∀ ig ∈ st.or_group_scores, ∀ x ∈ ig.2, evaluableLabel exam x.2.q_label = true) →
      (∀ e ∈ (sa.foldl (processAnswer exam score) st).marks_breakdown,
          evaluableLabel exam e.q_label = true)
      ∧ (∀ ig ∈ (sa.foldl (processAnswer exam score) st).or_group_scores,
          ∀ x ∈ ig.2, evaluableLabel exam x.2.q_label = true) := by
  intro sa
  induction sa with
  | nil =>
    intro st h1 h2
    exact ⟨h1, h2⟩
  | cons p rest ih =>
    intro st h1 h2
    simp only [List.foldl_cons]
    have hstep := processAnswer_good exam score st p h1 h2
    exact ih _ hstep.1 hstep.2

/-- C10.  A student answer whose question is absent from the teacher's key —
no entry under its number in `question_types`, or an empty/missing teacher
answer under its label — contributes nothing to the evaluation: the whole
result (breakdown, totals and OR-group data) is identical to evaluating the
submission with all such answers removed, and no such label can appear in the
marks breakdown, while the remaining questions are processed exactly as they
would be on their own. -/
theorem spec_c10 (exam : ExamData) (score : ScoreFn) (sa : List (String × String)) :
    evaluate_student_with_exam_data exam score sa
      = evaluate_student_with_exam_data exam score
          (sa.filter (fun p => evaluableLabel exam p.1))
    ∧ ∀ l, evaluableLabel exam l = false →
        l ∉ (evaluate_student_with_exam_data exam score sa).marks_breakdown.map
          MarkEntry.q_label := by
  constructor
  · unfold evaluate_student_with_exam_data
    rw [foldl_processAnswer_filter]
  · intro l hl hmem
    rcases List.mem_map.mp hmem with ⟨e, he, heq⟩
    have hst := foldl_processAnswer_good exam score sa ⟨[], 0, 0, []⟩
      (by intro e h; exact absurd h (by simp)) (by intro ig h; exact absurd h (by simp))
    have hgood := foldl_processOrGroup_good exam exam.or_groups
      (sa.foldl (processAnswer exam score) ⟨[], 0, 0, []⟩).or_group_scores
      (sa.foldl (processAnswer exam score) ⟨[], 0, 0, []⟩) hst.2 hst.1 e he
    rw [heq] at hgood
    rw [hgood] at hl
    exact absurd hl (by simp)

/-- Closed witness for C10: in `skipExam`, label `"Q7"` has no entry in the
key, and the theorem yields that it cannot appear in the breakdown. -/
theorem spec_c10_witness :
    evaluableLabel skipExam "Q7" = false
    ∧ "Q7" ∉ (evaluate_student_with_exam_data skipExam constScore skipAnswers).marks_breakdown.map
        MarkEntry.q_label := by
  refine ⟨by decide, ?_⟩
  exact (spec_c10 skipExam constScore skipAnswers).2 "Q7" (by decide)

/-! ### C4 — OR-group resolution -/

theorem singleStep_snd_eq :
    ∀ (g : List (String × ScoreData)) (a : Option (String × ScoreData)) (v : ℚ),
      (g.foldl singleStep (a, v)).2 = g.foldl (fun m x => max m x.2.score) v := by
  intro g
  induction g with
  | nil => intro a v; rfl
  | cons x rest ih =>
    intro a v
    simp only [List.foldl_cons]
    by_cases hc : v < x.2.score
    · simp only [singleStep, if_pos hc]
      rw [ih, max_eq_right hc.le]
    · simp only [singleStep, if_neg hc]
      rw [ih, max_eq_left (not_lt.mp hc)]

theorem le_foldl_maxScore :
    ∀ (g : List (String × ScoreData)) (v : ℚ), v ≤ g.foldl (fun m x => max m x.2.score) v := by
  intro g
  induction g with
  | nil => intro v; exact le_refl v
  | cons x rest ih =>
    intro v
    exact le_trans (le_max_left v x.2.score) (ih _)

theorem mem_le_foldl_maxScore :
    ∀ (g : List (String × ScoreData)) (v : ℚ) (x : String × ScoreData), x ∈ g →
      x.2.score ≤ g.foldl (fun m y => max m y.2.score) v := by
  intro g
  induction g with
  | nil =>
    intro v x hx
    exact absurd hx (by simp)
  | cons y rest ih =>
    intro v x hx
    rcases List.mem_cons.mp hx with rfl | hx
    · exact le_trans (le_max_right v x.2.score) (le_foldl_maxScore rest _)
    · exact ih _ x hx

theorem singleStep_fst_score :
    ∀ (g : List (String × ScoreData)) (a : Option (String × ScoreData)) (v : ℚ),
      (∀ p, a = some p → p.2.score = v) →
      ∀ p, (g.foldl singleStep (a, v)).1 = some p →
        p.2.score = (g.foldl singleStep (a, v)).2 := by
  intro g
  induction g with
  | nil =>
    intro a v ha p hp
    exact ha p hp
  | cons x rest ih =>
    intro a v ha p hp
    simp only [List.foldl_cons] at hp ⊢
    by_cases hc : v < x.2.score
    · simp only [singleStep, if_pos hc] at hp ⊢
      exact ih (some x) x.2.score (by intro p2 hp2; rw [← Option.some_inj.mp hp2]) p hp
    · simp only [singleStep, if_neg hc] at hp ⊢
      exact ih a v ha p hp

theorem singleBest_spec {gdata : List (String × ScoreData)} {q : String} {d : ScoreData}
    (h : singleBest gdata = some (q, d)) :
    (q, d) ∈ gdata ∧ ∀ x ∈ gdata, x.2.score ≤ d.score := by
  refine ⟨singleBest_mem h, ?_⟩
  intro x hx
  have hscore : d.score = (gdata.foldl singleStep (none, -1)).2 :=
    singleStep_fst_score gdata none (-1) (by intro p hp; exact absurd hp (by simp)) (q, d) h
  rw [singleStep_snd_eq] at hscore
  rw [hscore]
  exact mem_le_foldl_maxScore gdata (-1) x hx

theorem processAnswer_sums (exam : ExamData) (score : ScoreFn) (st : EvalState)
    (pa : String × String)
    (h1 : st.total_marks_obtained = (st.marks_breakdown.map MarkEntry.marks_obtained).sum)
    (h2 : st.total_marks_possible = (st.marks_breakdown.map MarkEntry.max_marks).sum) :
    (processAnswer exam score st pa).total_marks_obtained
        = ((processAnswer exam score st pa).marks_breakdown.map MarkEntry.marks_obtained).sum
    ∧ (processAnswer exam score st pa).total_marks_possible
        = ((processAnswer exam score st pa).marks_breakdown.map MarkEntry.max_marks).sum := by
  cases hqt : alookup (normalize_question_key pa.1) exam.question_types with
  | none =>
    simp only [processAnswer, hqt]
    exact ⟨h1, h2⟩
  | some q_type =>
    by_cases hta : (alookup pa.1 exam.teacher_answers).getD "" = ""
    · simp only [processAnswer, hqt, hta, if_true]
      exact ⟨h1, h2⟩
    · by_cases hty : q_type = "short" ∨ q_type = "long"
      · cases hor : or_question_map exam.or_groups (normalize_question_key pa.1) with
        | some idx =>
          simp only [processAnswer, hqt, if_neg hta, if_pos hty, hor]
          exact ⟨h1, h2⟩
        | none =>
          simp only [processAnswer, hqt, if_neg hta, if_pos hty, hor]
          constructor
          · simp [List.sum_append, h1]
          · simp [List.sum_append, h2]
      · simp only [processAnswer, hqt, if_neg hta, if_neg hty]
        exact ⟨h1, h2⟩

theorem sideSum_shift :
    ∀ (side : List String) (gdata : List (String × ScoreData)) (a b : ℚ),
      side.foldl (sideStep gdata) (a, b)
        = (a + (sideSum side gdata).1, b + (sideSum side gdata).2) := by
  intro side
  induction side with
  | nil =>
    intro gdata a b
    simp [sideSum]
  | cons q rest ih =>
    intro gdata a b
    simp only [List.foldl_cons, sideSum]
    cases hd : alookup q gdata with
    | some d =>
      simp only [sideStep, hd]
      rw [ih gdata (a + d.score) (b + d.max_marks), ih gdata (0 + d.score) (0 + d.max_marks)]
      simp only [Prod.mk.injEq]
      constructor <;> ring
    | none =>
      simp only [sideStep, hd]
      exact ih gdata a b

theorem pairEntries_sums (side : List String) (gdata : List (String × ScoreData)) (tag : String) :
    ((pairEntries side gdata tag).map MarkEntry.marks_obtained).sum = (sideSum side gdata).1
    ∧ ((pairEntries side gdata tag).map MarkEntry.max_marks).sum = (sideSum side gdata).2 := by
  induction side with
  | nil => simp [pairEntries, sideSum]
  | cons q rest ih =>
    cases hd : alookup q gdata with
    | some d =>
      simp only [pairEntries, List.filterMap_cons, hd, Option.map_some', sideSum,
        List.foldl_cons, sideStep] at ih ⊢
      rw [sideSum_shift rest gdata (0 + d.score) (0 + d.max_marks)]
      constructor
      · simp only [List.map_cons, List.sum_cons, ih.1, sideSum]
        ring
      · simp only [List.map_cons, List.sum_cons, ih.2, sideSum]
        ring
    | none =>
      simp only [pairEntries, List.filterMap_cons, hd, sideSum, List.foldl_cons,
        sideStep] at ih ⊢
      exact ih

theorem processOrGroup_sums (groups : List ORGroup) (st : EvalState)
    (ig : ℕ × List (String × ScoreData))
    (h1 : st.total_marks_obtained = (st.marks_breakdown.map MarkEntry.marks_obtained).sum)
    (h2 : st.total_marks_possible = (st.marks_breakdown.map MarkEntry.max_marks).sum) :
    (processOrGroup groups st ig).total_marks_obtained
        = ((processOrGroup groups st ig).marks_breakdown.map MarkEntry.marks_obtained).sum
    ∧ (processOrGroup groups st ig).total_marks_possible
        = ((processOrGroup groups st ig).marks_breakdown.map MarkEntry.max_marks).sum := by
  cases hget : groups.get? ig.1 with
  | none =>
    simp only [processOrGroup, hget]
    exact ⟨h1, h2⟩
  | some g =>
    cases g with
    | single options =>
      cases hbest : singleBest ig.2 with
      | none =>
        simp only [processOrGroup, hget, hbest]
        exact ⟨h1, h2⟩
      | some p =>
        obtain ⟨q, d⟩ := p
        simp only [processOrGroup, hget, hbest]
        constructor
        · simp [List.sum_append, h1]
        · simp [List.sum_append, h2]
    | pair option_a option_b =>
      simp only [processOrGroup, hget]
      split
      · constructor
        · simp [List.sum_append, h1, (pairEntries_sums option_a ig.2 "a").1]
        · simp [List.sum_append, h2, (pairEntries_sums option_a ig.2 "a").2]
      · constructor
        · simp [List.sum_append, h1, (pairEntries_sums option_b ig.2 "b").1]
        · simp [List.sum_append, h2, (pairEntries_sums option_b ig.2 "b").2]

theorem foldl_processAnswer_sums (exam : ExamData) (score : ScoreFn) :
    ∀ (sa : List (String × String)) (st : EvalState),
      st.total_marks_obtained = (st.marks_breakdown.map MarkEntry.marks_obtained).sum →
      st.total_marks_possible = (st.marks_breakdown.map MarkEntry.max_marks).sum →
      (sa.foldl (processAnswer exam score) st).total_marks_obtained
          = ((sa.foldl (processAnswer exam score) st).marks_breakdown.map
              MarkEntry.marks_obtained).sum
      ∧ (sa.foldl (processAnswer exam score) st).total_marks_possible
          = ((sa.foldl (processAnswer exam score) st).marks_breakdown.map
              MarkEntry.max_marks).sum := by
  intro sa
  induction sa with
  | nil =>
    intro st h1 h2
    exact ⟨h1, h2⟩
  | cons p rest ih =>
    intro st h1 h2
    have hstep := processAnswer_sums exam score st p h1 h2
    exact ih _ hstep.1 hstep.2

theorem foldl_processOrGroup_sums (groups : List ORGroup) :
    ∀ (L : List (ℕ × List (String × ScoreData))) (st : EvalState),
      st.total_marks_obtained = (st.marks_breakdown.map MarkEntry.marks_obtained).sum →
      st.total_marks_possible = (st.marks_breakdown.map MarkEntry.max_marks).sum →
      (L.foldl (processOrGroup groups) st).total_marks_obtained
          = ((L.foldl (processOrGroup groups) st).marks_breakdown.map
              MarkEntry.marks_obtained).sum
      ∧ (L.foldl (processOrGroup groups) st).total_marks_possible
          = ((L.foldl (processOrGroup groups) st).marks_breakdown.map
              MarkEntry.max_marks).sum := by
  intro L
  induction L with
  | nil =>
    intro st h1 h2
    exact ⟨h1, h2⟩
  | cons ig rest ih =>
    intro st h1 h2
    have hstep := processOrGroup_sums groups st ig h1 h2
    exact ih _ hstep.1 hstep.2

/-- C4, amended.  OR-group resolution as implemented: both running totals
always equal the sums of the corresponding fields over the graded breakdown
entries, so each OR group contributes the marks of exactly the chosen
option/pair (first two conjuncts); for a `single` group, the chosen option is
one of the graded options and its obtained score is maximal among them (third
conjunct); for a `pair` group, the obtained marks added are the larger of the
two sides' obtained sums, and the max marks added are those of the side with
the larger obtained sum, side `a` winning ties (fourth and fifth conjuncts).
Total possible marks therefore depend on which option was chosen whenever the
alternatives carry different max marks — the claim's independence statement
does not hold (see the counterexample). -/
theorem spec_c4_amended (exam : ExamData) (score : ScoreFn) (sa : List (String × String)) :
    (evaluate_student_with_exam_data exam score sa).total_marks_obtained
        = ((evaluate_student_with_exam_data exam score sa).marks_breakdown.map
            MarkEntry.marks_obtained).sum
    ∧ (evaluate_student_with_exam_data exam score sa).total_marks_possible
        = ((evaluate_student_with_exam_data exam score sa).marks_breakdown.map
            MarkEntry.max_marks).sum
    ∧ (∀ (gdata : List (String × ScoreData)) (q : String) (d : ScoreData),
        singleBest gdata = some (q, d) → (q, d) ∈ gdata ∧ ∀ x ∈ gdata, x.2.score ≤ d.score)
    ∧ (∀ (groups : List ORGroup) (st : EvalState) (idx : ℕ) (oa ob : List String)
        (gdata : List (String × ScoreData)), groups.get? idx = some (ORGroup.pair oa ob) →
        (processOrGroup groups st (idx, gdata)).total_marks_obtained
          = st.total_marks_obtained + max (sideSum oa gdata).1 (sideSum ob gdata).1)
    ∧ (∀ (groups : List ORGroup) (st : EvalState) (idx : ℕ) (oa ob : List String)
        (gdata : List (String × ScoreData)), groups.get? idx = some (ORGroup.pair oa ob) →
        (processOrGroup groups st (idx, gdata)).total_marks_possible
          = st.total_marks_possible +
            (if (sideSum ob gdata).1 ≤ (sideSum oa gdata).1 then (sideSum oa gdata).2
             else (sideSum ob gdata).2)) := by
  have hsums : (evaluate_student_with_exam_data exam score sa).total_marks_obtained
        = ((evaluate_student_with_exam_data exam score sa).marks_breakdown.map
            MarkEntry.marks_obtained).sum
      ∧ (evaluate_student_with_exam_data exam score sa).total_marks_possible
        = ((evaluate_student_with_exam_data exam score sa).marks_breakdown.map
            MarkEntry.max_marks).sum := by
    have hst := foldl_processAnswer_sums exam score sa ⟨[], 0, 0, []⟩ (by simp) (by simp)
    exact foldl_processOrGroup_sums exam.or_groups _ _ hst.1 hst.2
  refine ⟨hsums.1, hsums.2, ?_, ?_, ?_⟩
  · intro gdata q d h
    exact singleBest_spec h
  · intro groups st idx oa ob gdata hget
    simp only [processOrGroup, hget]
    split
    · rename_i hc
      rw [max_eq_left hc]
    · rename_i hc
      rw [max_eq_right (not_le.mp hc).le]
  · intro groups st idx oa ob gdata hget
    simp only [processOrGroup, hget]
    split
    · rfl
    · rfl

/-- Counterexample to C4.  The claim asserts that total possible marks are
independent of which OR option was chosen.  In `orExam`, questions 1 and 2
form a `single` OR group with max marks 2 and 5; under a score oracle
favouring question 1 the evaluation's total possible marks are 2, and under
one favouring question 2 they are 5 — the total possible marks depend on the
chosen option. -/
theorem spec_c4_counterexample :
    (evaluate_student_with_exam_data orExam scoreFavoursQ1 orAnswers).total_marks_possible = 2
    ∧ (evaluate_student_with_exam_data orExam scoreFavoursQ2 orAnswers).total_marks_possible = 5
    ∧ (2 : ℚ) ≠ 5 := by
  refine ⟨?_, ?_, by norm_num⟩
  · have h1 : (-1 : ℚ) < 1 := by norm_num
    have h2 : ¬((1 : ℚ) < 0) := by norm_num
    simp +decide [evaluate_student_with_exam_data, processAnswer, processOrGroup, orExam,
      orAnswers, scoreFavoursQ1, normalize_question_key, firstDigitRun, alookup,
      or_question_map, orMembers, List.enum, List.enumFrom, addOrScore, addScoreData,
      singleBest, singleStep, sideSum, sideStep, pairEntries, evaluableLabel,
      Char.isDigit, h1, h2]
  · have h1 : (-1 : ℚ) < 0 := by norm_num
    have h2 : (0 : ℚ) < 1 := by norm_num
    simp +decide [evaluate_student_with_exam_data, processAnswer, processOrGroup, orExam,
      orAnswers, scoreFavoursQ2, normalize_question_key, firstDigitRun, alookup,
      or_question_map, orMembers, List.enum, List.enumFrom, addOrScore, addScoreData,
      singleBest, singleStep, sideSum, sideStep, pairEntries, evaluableLabel,
      Char.isDigit, h1, h2]

/-- Closed witness for C4: the best-option characterization applied to a
concrete OR group's collected scores. -/
theorem spec_c4_witness :
    singleBest [("1", ⟨1, 2, "Q1", "short"⟩), ("2", ⟨0, 5, "Q2", "short"⟩)]
      = some ("1", ⟨1, 2, "Q1", "short"⟩)
    ∧ (("1", (⟨1, 2, "Q1", "short"⟩ : ScoreData))
        ∈ [("1", (⟨1, 2, "Q1", "short"⟩ : ScoreData)), ("2", ⟨0, 5, "Q2", "short"⟩)]
      ∧ ∀ x ∈ [("1", (⟨1, 2, "Q1", "short"⟩ : ScoreData)), ("2", ⟨0, 5, "Q2", "short"⟩)],
          x.2.score ≤ (⟨1, 2, "Q1", "short"⟩ : ScoreData).score) := by
  have hb : singleBest [("1", (⟨1, 2, "Q1", "short"⟩ : ScoreData)), ("2", ⟨0, 5, "Q2", "short"⟩)]
      = some ("1", ⟨1, 2, "Q1", "short"⟩) := by
    have h1 : (-1 : ℚ) < 1 := by norm_num
    have h2 : ¬((1 : ℚ) < 0) := by norm_num
    simp [singleBest, singleStep, h1, h2]
  exact ⟨hb, (spec_c4_amended orExam scoreFavoursQ1 orAnswers).2.2.1 _ _ _ hb⟩

/-! ### Rounding lemmas for the mark curve -/

theorem pyRound_intCast (n : ℤ) : pyRound (n : ℝ) = n := by
  unfold pyRound
  rw [Int.fract_intCast, Int.floor_intCast]
  norm_num

theorem pyRound_le_add_half (x : ℝ) : (pyRound x : ℝ) ≤ x + 1/2 := by
  have hsf := Int.self_sub_fract x
  have hfl := Int.floor_le x
  have hf1 := Int.fract_lt_one x
  unfold pyRound
  split_ifs with h1 h2 h3
  · linarith
  · push_cast
    linarith
  · linarith
  · have hf : Int.fract x = 1/2 := le_antisymm (not_lt.mp h2) (not_lt.mp h1)
    push_cast
    linarith

theorem sub_half_le_pyRound (x : ℝ) : x - 1/2 ≤ (pyRound x : ℝ) := by
  have hsf := Int.self_sub_fract x
  have hf0 := Int.fract_nonneg x
  have hf1 := Int.fract_lt_one x
  unfold pyRound
  split_ifs with h1 h2 h3
  · linarith
  · push_cast
    linarith
  · have hf : Int.fract x = 1/2 := le_antisymm (not_lt.mp h2) (not_lt.mp h1)
    linarith
  · push_cast
    linarith

theorem pyRound_mono {x y : ℝ} (h : x ≤ y) : pyRound x ≤ pyRound y := by
  have hf := Int.floor_mono h
  rcases eq_or_lt_of_le hf with heq | hlt
  · have hcast : (⌊x⌋ : ℝ) = (⌊y⌋ : ℝ) := by exact_mod_cast heq
    have hfr : Int.fract x ≤ Int.fract y := by
      have hx := Int.self_sub_fract x
      have hy := Int.self_sub_fract y
      linarith
    unfold pyRound
    rw [heq]
    split_ifs <;> first | omega | linarith
  · have hxle : pyRound x ≤ ⌊x⌋ + 1 := by
      unfold pyRound
      split_ifs <;> omega
    have hyge : ⌊y⌋ ≤ pyRound y := by
      unfold pyRound
      split_ifs <;> omega
    omega

theorem pyRound_nonneg {x : ℝ} (h : 0 ≤ x) : 0 ≤ pyRound x := by
  have hm := pyRound_mono h
  have h0 : pyRound ((0 : ℤ) : ℝ) = 0 := pyRound_intCast 0
  simp only [Int.cast_zero] at h0
  omega

theorem pyRound_eq_of_lt_half {x : ℝ} {n : ℤ} (h1 : (n : ℝ) ≤ x) (h2 : x < n + 1/2) :
    pyRound x = n := by
  have hfl : ⌊x⌋ = n := Int.floor_eq_iff.mpr ⟨h1, by linarith⟩
  have hfr : Int.fract x < 1/2 := by
    have hsf := Int.self_sub_fract x
    rw [hfl] at hsf
    linarith
  unfold pyRound
  rw [if_pos hfr, hfl]

theorem pyRound_tie_even {n : ℤ} (he : Even n) : pyRound ((n : ℝ) + 1/2) = n := by
  have hfl : ⌊(n : ℝ) + 1/2⌋ = n := by
    rw [Int.floor_eq_iff]
    constructor
    · linarith
    · linarith
  have hfr : Int.fract ((n : ℝ) + 1/2) = 1/2 := by
    have hsf := Int.self_sub_fract ((n : ℝ) + 1/2)
    rw [hfl] at hsf
    linarith
  unfold pyRound
  rw [hfr, hfl, if_neg (by norm_num), if_neg (by norm_num), if_pos he]

theorem pyRound2_mono {x y : ℝ} (h : x ≤ y) : pyRound2 x ≤ pyRound2 y := by
  unfold pyRound2
  have := pyRound_mono (mul_le_mul_of_nonneg_right h (by norm_num : (0:ℝ) ≤ 100))
  have hc : ((pyRound (x * 100) : ℤ) : ℝ) ≤ ((pyRound (y * 100) : ℤ) : ℝ) := by
    exact_mod_cast this
  linarith

theorem round_by_half_mono {x y : ℝ} (h : x ≤ y) : round_by_half x ≤ round_by_half y := by
  unfold round_by_half
  have := pyRound_mono (mul_le_mul_of_nonneg_right h (by norm_num : (0:ℝ) ≤ 2))
  have hc : ((pyRound (x * 2) : ℤ) : ℝ) ≤ ((pyRound (y * 2) : ℤ) : ℝ) := by
    exact_mod_cast this
  linarith

theorem pyRound2_nonneg {x : ℝ} (h : 0 ≤ x) : 0 ≤ pyRound2 x := by
  unfold pyRound2
  have := pyRound_nonneg (by positivity : (0:ℝ) ≤ x * 100)
  have hc : ((0 : ℤ) : ℝ) ≤ ((pyRound (x * 100) : ℤ) : ℝ) := by exact_mod_cast this
  simp only [Int.cast_zero] at hc
  positivity

theorem round_by_half_nonneg {x : ℝ} (h : 0 ≤ x) : 0 ≤ round_by_half x := by
  unfold round_by_half
  have := pyRound_nonneg (by positivity : (0:ℝ) ≤ x * 2)
  have hc : ((0 : ℤ) : ℝ) ≤ ((pyRound (x * 2) : ℤ) : ℝ) := by exact_mod_cast this
  simp only [Int.cast_zero] at hc
  positivity

theorem pyRound2_close (x : ℝ) : |pyRound2 x - x| ≤ 1/200 := by
  unfold pyRound2
  rw [abs_le]
  constructor
  · linarith [sub_half_le_pyRound (x * 100)]
  · linarith [pyRound_le_add_half (x * 100)]

theorem round_by_half_close (x : ℝ) : |round_by_half x - x| ≤ 1/4 := by
  unfold round_by_half
  rw [abs_le]
  constructor
  · linarith [sub_half_le_pyRound (x * 2)]
  · linarith [pyRound_le_add_half (x * 2)]

theorem round_by_half_pyRound2_close (x : ℝ) : |round_by_half (pyRound2 x) - x| ≤ 51/200 := by
  have h1 := round_by_half_close (pyRound2 x)
  have h2 := pyRound2_close x
  have h3 := abs_sub_le (round_by_half (pyRound2 x)) (pyRound2 x) x
  linarith

/-! ### C1 — the mark curve -/

/-- C1, amended.  For threshold below 1, non-negative exponent and
non-negative max mark: the mark is 0 below the threshold; at or above the
threshold it is an integer multiple of one half lying within 51/200 of the
raw curved mark `((s - t)/(1 - t))^e * max_mark` (the source rounds the raw
mark to 2 decimal places before rounding to halves, so it can land on the
half-multiple on the far side of the nearest one — see the counterexample);
and the returned mark is monotonically non-decreasing in the similarity. -/
theorem spec_c1_amended (t e m s s2 : ℝ) (he : 0 ≤ e) (ht : t < 1) (hm : 0 ≤ m) :
    (s < t → calculate_marks s m t e = 0)
    ∧ (t ≤ s → (∃ k : ℤ, calculate_marks s m t e = (k : ℝ) / 2)
        ∧ |calculate_marks s m t e - ((s - t) / (1 - t)) ^ e * m| ≤ 51/200)
    ∧ (s ≤ s2 → calculate_marks s m t e ≤ calculate_marks s2 m t e) := by
  have hraw_nonneg : ∀ u : ℝ, t ≤ u → 0 ≤ ((u - t) / (1 - t)) ^ e * m := by
    intro u hu
    have hbase : 0 ≤ (u - t) / (1 - t) := div_nonneg (by linarith) (by linarith)
    exact mul_nonneg (Real.rpow_nonneg hbase e) hm
  refine ⟨?_, ?_, ?_⟩
  · intro h
    unfold calculate_marks
    rw [if_pos h]
  · intro hts
    have hnot : ¬ s < t := not_lt.mpr hts
    constructor
    · refine ⟨pyRound (pyRound2 (((s - t) / (1 - t)) ^ e * m) * 2), ?_⟩
      unfold calculate_marks round_by_half
      rw [if_neg hnot]
    · unfold calculate_marks
      rw [if_neg hnot]
      exact round_by_half_pyRound2_close _
  · intro hss2
    by_cases hst : s < t
    · unfold calculate_marks
      rw [if_pos hst]
      by_cases hs2t : s2 < t
      · rw [if_pos hs2t]
      · rw [if_neg hs2t]
        exact round_by_half_nonneg (pyRound2_nonneg (hraw_nonneg s2 (not_lt.mp hs2t)))
    · have hts : t ≤ s := not_lt.mp hst
      have hts2 : t ≤ s2 := le_trans hts hss2
      unfold calculate_marks
      rw [if_neg (not_lt.mpr hts), if_neg (not_lt.mpr hts2)]
      have hbase1 : 0 ≤ (s - t) / (1 - t) := div_nonneg (by linarith) (by linarith)
      have hble : (s - t) / (1 - t) ≤ (s2 - t) / (1 - t) :=
        (div_le_div_iff_of_pos_right (by linarith : (0:ℝ) < 1 - t)).mpr (by linarith)
      have hrle : ((s - t) / (1 - t)) ^ e ≤ ((s2 - t) / (1 - t)) ^ e :=
        Real.rpow_le_rpow hbase1 hble he
      exact round_by_half_mono (pyRound2_mono (mul_le_mul_of_nonneg_right hrle hm))

/-- Counterexample to C1.  The claim states the mark is the raw curved mark
rounded to the nearest 0.5.  At similarity 1251/5000 with threshold 0,
exponent 1 and max mark 5, the raw mark is 1.251; the source first rounds it
to 2 decimals (1.25) and then to halves with ties to even, returning 1.0 —
but the unique nearest multiple of 0.5 to 1.251 is 1.5 (distance 0.249
versus 0.251). -/
theorem spec_c1_counterexample :
    calculate_marks (1251/5000) 5 0 1 = 1
    ∧ ¬ isNearestHalfOf (calculate_marks (1251/5000) 5 0 1)
        ((((1251/5000 : ℝ) - 0) / (1 - 0)) ^ (1 : ℝ) * 5) := by
  have hraw : (((1251/5000 : ℝ) - 0) / (1 - 0)) ^ (1 : ℝ) * 5 = 1251/1000 := by
    rw [Real.rpow_one]
    norm_num
  have hval : calculate_marks (1251/5000) 5 0 1 = 1 := by
    unfold calculate_marks
    rw [if_neg (by norm_num), hraw]
    unfold pyRound2
    have h1 : pyRound ((1251/1000 : ℝ) * 100) = 125 := by
      apply pyRound_eq_of_lt_half
      · norm_num
      · norm_num
    rw [h1]
    unfold round_by_half
    have h2 : ((125 : ℤ) : ℝ) / 100 * 2 = ((2 : ℤ) : ℝ) + 1/2 := by norm_num
    rw [h2, pyRound_tie_even (by decide)]
    norm_num
  refine ⟨hval, ?_⟩
  rintro ⟨-, hall⟩
  have h3 := hall 3
  rw [hval, hraw] at h3
  rw [abs_of_nonneg (by norm_num), abs_of_nonpos (by push_cast; norm_num)] at h3
  push_cast at h3
  norm_num at h3

/-- Closed witness for C1: the amended statement instantiated at threshold 0,
exponent 1, max mark 1, similarities 1/2 and 3/4, with the hypotheses
discharged. -/
theorem spec_c1_witness :
    (0 : ℝ) ≤ 1 ∧ (0 : ℝ) < 1 ∧
    (((1/2 : ℝ) < 0 → calculate_marks (1/2) 1 0 1 = 0)
      ∧ ((0 : ℝ) ≤ 1/2 → (∃ k : ℤ, calculate_marks (1/2) 1 0 1 = (k : ℝ) / 2)
          ∧ |calculate_marks (1/2) 1 0 1 - (((1/2 : ℝ) - 0) / (1 - 0)) ^ (1 : ℝ) * 1| ≤ 51/200)
      ∧ ((1/2 : ℝ) ≤ 3/4 → calculate_marks (1/2) 1 0 1 ≤ calculate_marks (3/4) 1 0 1)) :=
  ⟨by norm_num, by norm_num,
   spec_c1_amended 0 1 1 (1/2) (3/4) (by norm_num) (by norm_num) (by norm_num)⟩

/-! ### C3 — default thresholds and exponent -/

/-- Counterexample to C3.  The claim states that long-answer holistic scoring
defaults to threshold 0.50.  With a similarity oracle returning 0.45,
`holistic_valuation` under its actual default threshold (0.35) awards a
strictly positive mark, whereas a threshold of 0.50 would award exactly 0 —
so the default holistic threshold is not 0.50 (and likewise the point
threshold is 0.4, not 0.55; see the amended statement). -/
theorem spec_c3_counterexample :
    0 < (holistic_valuation_defaulted (fun _ _ => (0.45 : ℝ))
          "student answer" ["key point"] 2).total_mark_scored
    ∧ calculate_marks 0.45 2 0.5 0.6 = 0 := by
  constructor
  · unfold holistic_valuation_defaulted holistic_valuation holistic_threshold_default
      calculate_marks calculate_marks_exponent_default
    show 0 < if (0.45 : ℝ) < 0.35 then 0
      else round_by_half (pyRound2 (((0.45 - 0.35) / (1 - 0.35)) ^ (0.6 : ℝ) * 2))
    rw [if_neg (by norm_num)]
    rw [show ((0.45 - 0.35) / (1 - 0.35) : ℝ) = 2/13 by norm_num]
    have hbound : (4/13 : ℝ) ≤ ((2/13 : ℝ)) ^ (0.6 : ℝ) * 2 := by
      have h1 : ((2/13 : ℝ)) ^ (1 : ℝ) ≤ (2/13 : ℝ) ^ (0.6 : ℝ) :=
        Real.rpow_le_rpow_of_exponent_ge (by norm_num) (by norm_num) (by norm_num)
      rw [Real.rpow_one] at h1
      linarith
    have hclose := abs_le.mp (round_by_half_pyRound2_close (((2/13 : ℝ)) ^ (0.6 : ℝ) * 2))
    linarith [hclose.1]
  · unfold calculate_marks
    rw [if_pos (by norm_num)]

/-- C3, amended.  The defaults actually declared in the source are: 0.55 for
`evaluation_short_answer` and `calculate_marks`, 0.35 for the holistic
threshold (both in `holistic_valuation` and as `advanced_long_valuation`'s
`holistic_threshold`), 0.4 for the point threshold (both in
`point_by_point_valuation` and as `advanced_long_valuation`'s
`point_threshold`), with exponent 0.6 everywhere; the claim's short-answer
threshold and exponent are as stated, but its holistic (0.50) and point
(0.55) thresholds are not the source's defaults. -/
theorem spec_c3_amended :
    evaluation_short_answer_threshold_default = 0.55
    ∧ calculate_marks_threshold_default = 0.55
    ∧ calculate_marks_exponent_default = 0.6
    ∧ advanced_holistic_threshold_default = 0.35
    ∧ advanced_point_threshold_default = 0.4
    ∧ holistic_threshold_default = 0.35
    ∧ point_by_point_threshold_default = 0.4
    ∧ (∀ (sim : String → String → ℝ) (student_answer teacher_answer : String) (max_mark : ℝ),
        evaluation_short_answer_defaulted sim student_answer teacher_answer max_mark
          = calculate_marks (short_answer_valuation sim student_answer teacher_answer)
              max_mark 0.55 0.6)
    ∧ (∀ (sim : String → String → ℝ) (teacher_key_point : List String)
        (student_answer : String) (total_question_mark : ℝ),
        advanced_long_valuation_defaulted sim teacher_key_point student_answer
            total_question_mark
          = advanced_long_valuation sim teacher_key_point student_answer
              total_question_mark 0.35 0.4)
    ∧ (∀ (sim : String → String → ℝ) (student_answer : String)
        (teacher_key_point : List String) (total_question_mark : ℝ),
        holistic_valuation_defaulted sim student_answer teacher_key_point total_question_mark
          = holistic_valuation sim student_answer teacher_key_point total_question_mark 0.35) := by
  exact ⟨rfl, rfl, rfl, rfl, rfl, rfl, rfl, fun _ _ _ _ => rfl, fun _ _ _ _ => rfl,
    fun _ _ _ _ => rfl⟩

/-! ### C2 — advanced long valuation -/

theorem bestMatch_fold (sim : String → String → ℝ) (kp : String) :
    ∀ (ps : List String) (a : ℝ) (b : String),
      (ps.foldl (fun acc p => if acc.1 < sim kp p then (sim kp p, truncPara p) else acc) (a, b)).1
        = ps.foldl (fun mx p => max mx (sim kp p)) a := by
  intro ps
  induction ps with
  | nil => intro a b; rfl
  | cons p rest ih =>
    intro a b
    simp only [List.foldl_cons]
    by_cases hc : a < sim kp p
    · rw [if_pos hc, ih, max_eq_right hc.le]
    · rw [if_neg hc, ih, max_eq_left (not_lt.mp hc)]

theorem foldl_max_comm : ∀ (xs : List ℝ) (a x : ℝ), xs.foldl max (max a x) = max a (xs.foldl max x) := by
  intro xs
  induction xs with
  | nil => intro a x; rfl
  | cons y ys ih =>
    intro a x
    simp only [List.foldl_cons]
    rw [max_assoc, ih]

theorem foldl_max_listMax : ∀ (l : List ℝ) (a : ℝ), l ≠ [] → l.foldl max a = max a (listMax l) := by
  intro l a hl
  cases l with
  | nil => exact absurd rfl hl
  | cons x xs =>
    simp only [List.foldl_cons, listMax]
    exact foldl_max_comm xs a x

theorem calculate_marks_max_zero (v m t e : ℝ) (ht : 0 < t) :
    calculate_marks (max 0 v) m t e = calculate_marks v m t e := by
  by_cases hv : v < t
  · have h1 : max 0 v < t := max_lt ht hv
    unfold calculate_marks
    rw [if_pos h1, if_pos hv]
  · have hv2 : t ≤ v := not_lt.mp hv
    rw [max_eq_right (le_trans ht.le hv2)]

theorem bestMatch_fst (sim : String → String → ℝ) (kp : String) (ps : List String)
    (hps : ps ≠ []) :
    (bestMatch sim kp ps).1 = max 0 (listMax (ps.map (fun p => sim kp p))) := by
  unfold bestMatch
  rw [bestMatch_fold]
  rw [← List.foldl_map (fun p => sim kp p) max ps 0]
  exact foldl_max_listMax _ 0 (by simpa using hps)

theorem pbp_fold_sum (sim : String → String → ℝ) (ps : List String) (mpp thr : ℝ) :
    ∀ (kps : List String) (acc : List PointDetail) (a : ℝ),
      (kps.foldl
        (fun (acc : List PointDetail × ℝ) key_point =>
          let bm := bestMatch sim key_point ps
          let mark_of_point := calculate_marks bm.1 mpp thr calculate_marks_exponent_default
          (acc.1 ++ [⟨key_point, mark_of_point, mpp, bm.1, bm.2⟩], acc.2 + mark_of_point))
        (acc, a)).2
      = a + (kps.map (fun kp =>
          calculate_marks (bestMatch sim kp ps).1 mpp thr calculate_marks_exponent_default)).sum := by
  intro kps
  induction kps with
  | nil =>
    intro acc a
    simp
  | cons kp rest ih =>
    intro acc a
    simp only [List.foldl_cons, List.map_cons, List.sum_cons]
    rw [ih]
    ring

/-- C2.  Whenever the paragraph splitter succeeds on the student's answer
(producing a non-empty paragraph list) and the key-point list is non-empty,
`advanced_long_valuation` returns a result whose final score is the maximum
of the holistic mark and the point-by-point total, where the point-by-point
total scores each teacher key point at its maximum similarity against any
student paragraph through the mark curve with
`max_mark = total_marks / number_of_key_points`, summed across key points.
The positivity hypothesis on the point threshold (satisfied by the default
0.4) makes the source's clamping of the running best score at 0 invisible in
the awarded marks. -/
theorem spec_c2 (sim : String → String → ℝ) (kps : List String) (student : String)
    (total hThr pThr : ℝ) (ps : List String) (hp : 0 < pThr) (hk : kps ≠ [])
    (hps : ps ≠ []) (hsplit : smart_paragraph_split student = Except.ok ps) :
    ∃ r, advanced_long_valuation sim kps student total hThr pThr = Except.ok r
      ∧ r.final_score
          = max (holistic_valuation sim student kps total hThr).total_mark_scored
              ((kps.map (fun kp =>
                  calculate_marks (listMax (ps.map (fun p => sim kp p)))
                    (total / (kps.length : ℝ)) pThr calculate_marks_exponent_default)).sum) := by
  have hlen : ¬ kps.length = 0 := by simpa using hk
  unfold advanced_long_valuation point_by_point_valuation
  rw [if_neg hlen, hsplit]
  refine ⟨_, rfl, ?_⟩
  simp only
  congr 1
  rw [pbp_fold_sum, zero_add]
  congr 1
  apply List.map_congr_left
  intro kp _
  rw [bestMatch_fst sim kp ps hps, calculate_marks_max_zero _ _ _ _ hp]

/-- Closed witness for C2: the final-score characterization applied with a
constant similarity oracle on a one-key-point, one-paragraph instance, all
hypotheses discharged concretely. -/
theorem spec_c2_witness :
    (0 : ℝ) < 0.4
    ∧ (["water evaporates"] : List String) ≠ []
    ∧ smart_paragraph_split "the water goes up" = Except.ok ["the water goes up"]
    ∧ ∃ r, advanced_long_valuation (fun _ _ => (1/2 : ℝ)) ["water evaporates"]
          "the water goes up" 4 0.35 0.4 = Except.ok r
        ∧ r.final_score
            = max (holistic_valuation (fun _ _ => (1/2 : ℝ)) "the water goes up"
                ["water evaporates"] 4 0.35).total_mark_scored
              ((["water evaporates"].map (fun kp =>
                  calculate_marks
                    (listMax (["the water goes up"].map
                      (fun p => (fun _ _ => (1/2 : ℝ)) kp p)))
                    (4 / ((["water evaporates"] : List String).length : ℝ)) 0.4
                    calculate_marks_exponent_default)).sum) :=
  ⟨by norm_num, by simp, rfl,
   spec_c2 (fun _ _ => (1/2 : ℝ)) ["water evaporates"] "the water goes up" 4 0.35 0.4
     ["the water goes up"] (by norm_num) (by simp) (by simp) rfl⟩
